import Mathlib

/-!
Verification development for the contour fork's resource-graph builder and
projection visitors.  The definitions below are a shallow embedding of the Go
sources:

* `internal/dag/builder_adobe.go` — `validIngressRoutes`, `computeIngressRoute`,
  `processIngressRoutes`, `processIngressRouteTCPProxy`;
* `internal/dag/policy_adobe.go`  — `ingressrouteHealthCheckPolicy`;
* `internal/envoy/route.go`       — `weightedClusters` and its sorter;
* the envoy listener helpers (`TCPProxy`, `FilterChainTLS`, …);
* `internal/contour/listener.go` / `listener_adobe.go` — the listener visitor's
  `visit` for secure virtual hosts, `minProtoVersion`, `maxProtoVersion`,
  `isTCPProxyFilter`, and `ListenerCache.Query`.

Go machine integers that the embedded code only compares and copies are modelled
as `Int`/`Nat` (no arithmetic that could overflow occurs in the embedded
fragments).  Durations are nanosecond counts (`Int`), matching Go's
`time.Duration`.  Opaque policy payloads (retry policy, hash policy, header
policies, secrets, validation contexts) whose constructors live outside the
embedded files are carried as `String` tokens; the helper functions operating
on them that live outside the sources at hand are abstract fields of
`BuilderEnv`.
-/

/-! ### String utilities

Go compares strings bytewise; we compare code points, which agrees on ASCII.
`strLe`/`sortStrings` model `sort.Strings`, `joinSep` models `strings.Join`,
`quoteStr` models `%q` for strings without escapes. -/

def strLeAux : List Char → List Char → Bool
  | [], _ => true
  | _ :: _, [] => false
  | a :: as, b :: bs =>
    if a.val.toNat < b.val.toNat then true
    else if b.val.toNat < a.val.toNat then false
    else strLeAux as bs

def strLe (s t : String) : Bool := strLeAux s.data t.data

/-- Stable insertion into a `le`-sorted list: the new element goes in front of
the first element it is `le`-related to. -/
def insertLe {α : Type} (le : α → α → Bool) (a : α) : List α → List α
  | [] => [a]
  | b :: l => if le a b then a :: b :: l else b :: insertLe le a l

/-- Stable insertion sort (models both `sort.Strings` and `sort.Stable`). -/
def sortLe {α : Type} (le : α → α → Bool) (l : List α) : List α :=
  l.foldr (insertLe le) []

def sortStrings (l : List String) : List String := sortLe strLe l

/-- Models `strings.Join(l, sep)`. -/
def joinSep (sep : String) : List String → String
  | [] => ""
  | [s] => s
  | s :: rest => s ++ sep ++ joinSep sep rest

/-- Models `fmt`'s `%q` on escape-free strings. -/
def quoteStr (s : String) : String := "\"" ++ s ++ "\""

/-- Association-list lookup (first binding wins), modelling Go map lookup. -/
def alistGet {β : Type} (k : String) (l : List (String × β)) : Option β :=
  (l.find? fun p => p.1 = k).map (·.2)

/-! ### Kubernetes-style identifiers and the resource model

Fields mirror the `IngressRoute` CRD fields that `builder_adobe.go` reads.
The Go field `Namespace` is rendered `ns` (`namespace` is a Lean keyword). -/

structure FullName where
  ns : String
  name : String
deriving DecidableEq, Repr

structure DelegateRef where
  name : String
  ns : String
deriving DecidableEq, Repr

structure TracingSpec where
  clientSampling : Nat
  randomSampling : Nat
deriving DecidableEq, Repr

structure HeaderMatchCond where
  headerName : String
  exact : String
deriving DecidableEq, Repr

/-- Per `internal/dag/policy_adobe.go` (`ingressroutev1.HealthCheck`). -/
structure HealthCheckSpec where
  path : String
  host : String
  intervalSeconds : Int
  timeoutSeconds : Int
  unhealthyThresholdCount : Nat
  healthyThresholdCount : Nat
deriving DecidableEq, Repr

structure ServiceRef where
  name : String
  port : Int
  weight : Nat
  strategy : String
  healthCheck : Option HealthCheckSpec
  upstreamValidation : Option String
  idleTimeout : Option Int
deriving DecidableEq, Repr

structure RouteEntry where
  matchPath : String
  services : List ServiceRef
  delegate : Option DelegateRef
  permitInsecure : Bool
  enableWebsockets : Bool
  pfxRewrite : String
  timeoutPolicy : Option String
  retryPolicy : Option String
  hashPolicy : List String
  perFilterConfig : Option String
  requestHeadersPolicy : Option String
  responseHeadersPolicy : Option String
  idleTimeout : Option Int
  timeout : Option Int
  tracing : Option TracingSpec
  headerMatch : List HeaderMatchCond
deriving DecidableEq, Repr

structure TCPServiceRef where
  name : String
  port : Int
  strategy : String
deriving DecidableEq, Repr

structure TCPProxySpec where
  services : List TCPServiceRef
  delegate : Option DelegateRef
deriving DecidableEq, Repr

structure TLSSpec where
  secretName : String
  passthrough : Bool
  minimumProtocolVersion : String
  maximumProtocolVersion : String
deriving DecidableEq, Repr

structure VirtualHostSpec where
  fqdn : String
  tls : Option TLSSpec
deriving DecidableEq, Repr

/-- An `ingressroutev1.IngressRoute` with its `Spec` flattened in. -/
structure IngressRoute where
  name : String
  ns : String
  virtualHost : Option VirtualHostSpec
  routes : List RouteEntry
  tcpproxy : Option TCPProxySpec
deriving DecidableEq, Repr

def fullName (ir : IngressRoute) : FullName := ⟨ir.ns, ir.name⟩

/-! ### Built graph objects (the `dag` package output types) -/

structure UpstreamService where
  name : String
  ns : String
  port : Int
  protocol : String
deriving DecidableEq, Repr

/-- Output of `ingressrouteHealthCheckPolicy`; intervals in nanoseconds. -/
structure HTTPHealthCheckPolicy where
  path : String
  host : String
  interval : Int
  timeout : Int
  unhealthyThreshold : Nat
  healthyThreshold : Nat
deriving DecidableEq, Repr

structure DagCluster where
  upstream : UpstreamService
  loadBalancerPolicy : String
  weight : Nat
  httpHealthCheckPolicy : Option HTTPHealthCheckPolicy
  upstreamValidation : Option String
  protocol : String
  idleTimeout : Option Int
deriving DecidableEq, Repr

structure DagRoute where
  pathCondPfx : String
  websocket : Bool
  httpsUpgrade : Bool
  pfxRewrite : String
  timeoutPolicy : Option String
  retryPolicy : Option String
  hashPolicy : List String
  perFilterConfig : Option String
  requestHeadersPolicy : Option String
  responseHeadersPolicy : Option String
  idleTimeout : Option Int
  timeout : Option Int
  tracing : Option TracingSpec
  headerConditions : List HeaderMatchCond
  clusters : List DagCluster
deriving DecidableEq, Repr

/-! ### TLS protocol versions

The envoy `TlsParameters_TlsProtocol` enum, as the numbers Go compares. -/

def TLS_AUTO : Nat := 0
def TLSv1_0 : Nat := 1
def TLSv1_1 : Nat := 2
def TLSv1_2 : Nat := 3
def TLSv1_3 : Nat := 4

/-- A built `SecureVirtualHost` (the fields `builder_adobe.go` writes). -/
structure SVHost where
  secret : Option String
  minTLSVersion : Nat
  maxTLSVersion : Nat
  tcpproxy : Option (List DagCluster)
  routes : List DagRoute
deriving DecidableEq, Repr

def defaultSVHost : SVHost := ⟨none, 0, 0, none, []⟩

/-- A per-resource status record (`valid := false` means Invalid). -/
structure StatusRec where
  valid : Bool
  description : String
deriving DecidableEq, Repr

/-- The builder's mutable state.  `statuses` is the chronological list of
committed status events; per the status writer, only the first event recorded
for a resource stands in a build pass (`Status Record: produced once per build
pass`). -/
structure BuildState where
  statuses : List (FullName × StatusRec)
  orphaned : List FullName
  virtualhosts : List (String × List DagRoute)
  securevirtualhosts : List (String × SVHost)
deriving DecidableEq, Repr

def initialBuildState : BuildState := ⟨[], [], [], []⟩

/-- The status a resource ends up with: its first committed event. -/
def statusOf (st : BuildState) (m : FullName) : Option StatusRec :=
  (st.statuses.find? fun p => p.1 = m).map (·.2)

/-- An `ObjectStatusWriter`: pending status for one object; only the first
status assignment to a writer is kept, and `commit` records it. -/
structure ObjWriter where
  obj : FullName
  status : Option StatusRec
deriving DecidableEq, Repr

def newWriter (m : FullName) : ObjWriter := ⟨m, none⟩

def ObjWriter.setStatus (w : ObjWriter) (s : StatusRec) : ObjWriter :=
  match w.status with
  | some _ => w
  | none => { w with status := some s }

def ObjWriter.setInvalid (w : ObjWriter) (msg : String) : ObjWriter :=
  w.setStatus ⟨false, msg⟩

def ObjWriter.setValid (w : ObjWriter) : ObjWriter :=
  w.setStatus ⟨true, "valid IngressRoute"⟩

/-- Commit a writer: append its status event (if any) to the state. -/
def commitW (w : ObjWriter) (st : BuildState) : BuildState :=
  match w.status with
  | none => st
  | some s => { st with statuses := st.statuses ++ [(w.obj, s)] }

def setOrphaned (m : FullName) (st : BuildState) : BuildState :=
  if m ∈ st.orphaned then st else { st with orphaned := st.orphaned ++ [m] }

def eraseOrphaned (m : FullName) (st : BuildState) : BuildState :=
  { st with orphaned := st.orphaned.filter (· ≠ m) }

/-- `lookupVirtualHost(host).addRoute(r)`: get-or-create, then append. -/
def addVHRoute (host : String) (r : DagRoute) (st : BuildState) : BuildState :=
  match alistGet host st.virtualhosts with
  | some rs =>
    { st with virtualhosts :=
        st.virtualhosts.map fun p => if p.1 = host then (p.1, rs ++ [r]) else p }
  | none => { st with virtualhosts := st.virtualhosts ++ [(host, [r])] }

/-- `lookupSecureVirtualHost(host)` followed by a field update. -/
def updateSVHost (host : String) (f : SVHost → SVHost) (st : BuildState) : BuildState :=
  match alistGet host st.securevirtualhosts with
  | some sv =>
    { st with securevirtualhosts :=
        st.securevirtualhosts.map fun p => if p.1 = host then (p.1, f sv) else p }
  | none => { st with securevirtualhosts := st.securevirtualhosts ++ [(host, f defaultSVHost)] }

def addSVHRoute (host : String) (r : DagRoute) (st : BuildState) : BuildState :=
  updateSVHost host (fun sv => { sv with routes := sv.routes ++ [r] }) st

/-! ### The builder environment

`ingressroutes` models `b.Source.ingressroutes` (a map with unique keys,
rendered as a list looked up by `FullName`).  The remaining fields model the
lookups and policy helpers the builder calls that are defined outside the
embedded files (`builder.go`, upstream policy helpers); they are abstract
here and instantiated concretely in examples. -/

structure BuilderEnv where
  ingressroutes : List IngressRoute
  rootNamespaces : List String
  disablePermitInsecure : Bool
  lookupService : FullName → Int → Option UpstreamService
  lookupSecret : FullName → Except String String
  delegationPermitted : FullName → String → Bool
  lookupUpstreamValidation : Option String → String → Except String (Option String)
  headersPolicy : String → Bool → Except String String
  headerConditionsValid : List HeaderMatchCond → Bool
  mergeHeaderConditions : List HeaderMatchCond → List HeaderMatchCond

def irLookup (env : BuilderEnv) (m : FullName) : Option IngressRoute :=
  env.ingressroutes.find? fun ir => fullName ir = m

def irKeys (env : BuilderEnv) : List FullName := env.ingressroutes.map fullName

/-- Models upstream `isBlank`: `strings.TrimSpace(s) == ""`. -/
def isBlank (s : String) : Bool := s.data.all Char.isWhitespace

/-- Models upstream `rootAllowed`: every namespace is allowed when no root
namespaces are configured. -/
def rootAllowed (env : BuilderEnv) (ns : String) : Bool :=
  env.rootNamespaces.isEmpty || env.rootNamespaces.contains ns

/-- Models upstream `splitSecret(secret, defns)`: split at the first slash;
without a slash the default namespace applies. -/
def splitSecret (secret : String) (defns : String) : FullName :=
  match secret.data.span (· != '/') with
  | (_, []) => ⟨defns, secret⟩
  | (pre, _ :: post) => ⟨⟨pre⟩, ⟨post⟩⟩

/-- Modelled from the spec: a terminal route's `effective path condition must
be a prefix-extension of the inherited prefix` (upstream `matchesPathPrefix`,
which is not among the embedded files): an empty inherited scope admits
everything, otherwise the route path extended with a trailing slash must start
with the inherited scope extended with a trailing slash. -/
def matchesPathPfx (path pfx : String) : Bool :=
  if pfx.data.isEmpty then true
  else if path.data.isEmpty then false
  else
    let pfx2 := if pfx.data.getLast? = some '/' then pfx.data else pfx.data ++ ['/']
    let path2 := if path.data.getLast? = some '/' then path.data else path.data ++ ['/']
    pfx2.isPrefixOf path2

/-- Models upstream `routeEnforceTLS`: TLS is enforced for the route unless
the route permits insecure access. -/
def routeEnforceTLS (enforceTLS permitInsecure : Bool) : Bool :=
  enforceTLS && !permitInsecure

/-- Modelled from the spec: the annotation parser for the requested minimum
TLS version (`resolved minimum version = max(configured floor, per-host
request)` — unknown or unset strings fall back to the TLS 1.1 default). -/
def annotationMinTLSVersion (s : String) : Nat :=
  if s = "1.3" then TLSv1_3
  else if s = "1.2" then TLSv1_2
  else TLSv1_1

/-- Modelled from the spec: the annotation parser for the requested maximum
TLS version — `maximum version = the per-host value or a default "highest
supported" sentinel when unset` (the `TLS_AUTO` sentinel). -/
def annotationMaxProtoVersion (s : String) : Nat :=
  if s = "1.3" then TLSv1_3
  else if s = "1.2" then TLSv1_2
  else TLS_AUTO

/-- Decimal rendering of a bounded natural (fuelled digit recursion so that
the kernel can evaluate it; 20 digits cover every value that occurs). -/
def natStrAux : Nat → Nat → String
  | 0, _ => ""
  | _ + 1, n =>
    let d : Char := Char.ofNat (48 + n % 10)
    if n < 10 then String.mk [d]
    else natStrAux 19 (n / 10) ++ String.mk [d]

def natStr (n : Nat) : String := natStrAux 20 n

def intStr (i : Int) : String :=
  if i < 0 then "-" ++ natStr i.natAbs else natStr i.natAbs

/-- One hour, in nanoseconds (`time.Hour`). -/
def nsPerHour : Int := 3600000000000

/-- Per `internal/dag/policy_adobe.go`. -/
def ingressrouteHealthCheckPolicy : Option HealthCheckSpec → Option HTTPHealthCheckPolicy
  | none => none
  | some hc => some
      { path := hc.path
        host := hc.host
        interval := hc.intervalSeconds * 1000000000
        timeout := hc.timeoutSeconds * 1000000000
        unhealthyThreshold := hc.unhealthyThresholdCount
        healthyThreshold := hc.healthyThresholdCount }

/-! ### `processIngressRoutes` — terminal route construction

`buildClusters` and `buildRouteForEntry` embed the body of the
`len(route.Services) > 0` branch of `processIngressRoutes`
(`builder_adobe.go` lines 135–270); an `Except.error` carries the exact
`SetInvalid` message and aborts processing of the resource, in source order. -/

/-- The per-service idle-timeout handling (`builder_adobe.go` lines 256–267):
the same clamping and rejection rule as for routes. -/
def applyClusterIdleTimeout (matchStr : String) (service : ServiceRef) (c : DagCluster) :
    Except String DagCluster :=
  match service.idleTimeout with
  | none => .ok c
  | some d =>
    if d > nsPerHour then .ok { c with idleTimeout := some nsPerHour }
    else if d ≤ 0 then
      .error ("route: " ++ quoteStr matchStr ++ " service " ++ quoteStr service.name ++
        ": idle timeout can not be disabled")
    else .ok { c with idleTimeout := some d }

def buildClusters (env : BuilderEnv) (ns0 matchStr : String) :
    List ServiceRef → Except String (List DagCluster)
  | [] => .ok []
  | service :: rest => do
    if service.port < 1 ∨ service.port > 65535 then
      throw ("route " ++ quoteStr matchStr ++ ": service " ++ quoteStr service.name ++
        ": port must be in the range 1-65535")
    match env.lookupService ⟨ns0, service.name⟩ service.port with
    | none =>
      throw ("Service [" ++ service.name ++ ":" ++ intStr service.port ++
        "] is invalid or missing")
    | some s => do
      let uv : Option String ←
        if s.protocol = "tls" then
          match env.lookupUpstreamValidation service.upstreamValidation ns0 with
          | .error e =>
            throw ("Service [" ++ service.name ++ ":" ++ intStr service.port ++
              "] TLS upstream validation policy error: " ++ e)
          | .ok uv => pure uv
        else pure none
      let c0 : DagCluster :=
        { upstream := s
          loadBalancerPolicy := service.strategy
          weight := service.weight
          httpHealthCheckPolicy := ingressrouteHealthCheckPolicy service.healthCheck
          upstreamValidation := uv
          protocol := s.protocol
          idleTimeout := none }
      let c ← applyClusterIdleTimeout matchStr service c0
      let cs ← buildClusters env ns0 matchStr rest
      pure (c :: cs)

def applyReqHP (env : BuilderEnv) (route : RouteEntry) (r : DagRoute) :
    Except String DagRoute :=
  match route.requestHeadersPolicy with
  | none => .ok r
  | some hp =>
    match env.headersPolicy hp true with
    | .error e => .error e
    | .ok v => .ok { r with requestHeadersPolicy := some v }

def applyRespHP (env : BuilderEnv) (route : RouteEntry) (r : DagRoute) :
    Except String DagRoute :=
  match route.responseHeadersPolicy with
  | none => .ok r
  | some hp =>
    match env.headersPolicy hp false with
    | .error e => .error e
    | .ok v => .ok { r with responseHeadersPolicy := some v }

/-- The route-level idle-timeout handling (`builder_adobe.go` lines 171–182):
above one hour clamp to one hour, non-positive is rejected, otherwise the
requested value is used. -/
def applyIdleTimeoutR (route : RouteEntry) (r : DagRoute) : Except String DagRoute :=
  match route.idleTimeout with
  | none => .ok r
  | some d =>
    if d > nsPerHour then .ok { r with idleTimeout := some nsPerHour }
    else if d ≤ 0 then
      .error ("route " ++ quoteStr route.matchPath ++ ": idle timeout can not be disabled")
    else .ok { r with idleTimeout := some d }

def applyTimeoutR (route : RouteEntry) (r : DagRoute) : Except String DagRoute :=
  match route.timeout with
  | none => .ok r
  | some d =>
    if d < 0 then
      .error ("route " ++ quoteStr route.matchPath ++ ": timeout value must be >= 0")
    else .ok { r with timeout := some d }

def applyTracingR (route : RouteEntry) (r : DagRoute) : Except String DagRoute :=
  match route.tracing with
  | none => .ok r
  | some t =>
    if t.clientSampling > 100 then
      .error ("route " ++ quoteStr route.matchPath ++
        ": tracing clientSampling must be in the range [0,100]")
    else if t.randomSampling > 100 then
      .error ("route " ++ quoteStr route.matchPath ++
        ": tracing randomSampling must be in the range [0,100]")
    else .ok { r with tracing := some t }

def applyHeaderMatchR (env : BuilderEnv) (route : RouteEntry) (r : DagRoute) :
    Except String DagRoute :=
  if route.headerMatch.isEmpty then .ok r
  else if ¬ env.headerConditionsValid route.headerMatch then
    .error ("cannot specify duplicate header \x27exact match\x27 conditions in the same route")
  else .ok { r with headerConditions := env.mergeHeaderConditions route.headerMatch }

def buildRouteForEntry (env : BuilderEnv) (ns0 pfxMatch : String) (enforceTLS : Bool)
    (route : RouteEntry) : Except String DagRoute := do
  if ¬ matchesPathPfx route.matchPath pfxMatch then
    throw ("the path prefix " ++ quoteStr route.matchPath ++
      " does not match the parent's path prefix " ++ quoteStr pfxMatch)
  let permitInsecure := route.permitInsecure && !env.disablePermitInsecure
  let r0 : DagRoute :=
    { pathCondPfx := route.matchPath
      websocket := route.enableWebsockets
      httpsUpgrade := routeEnforceTLS enforceTLS permitInsecure
      pfxRewrite := route.pfxRewrite
      timeoutPolicy := route.timeoutPolicy
      retryPolicy := route.retryPolicy
      hashPolicy := route.hashPolicy
      perFilterConfig := route.perFilterConfig
      requestHeadersPolicy := none
      responseHeadersPolicy := none
      idleTimeout := none
      timeout := none
      tracing := none
      headerConditions := []
      clusters := [] }
  let r1 ← applyReqHP env route r0
  let r2 ← applyRespHP env route r1
  let r3 ← applyIdleTimeoutR route r2
  let r4 ← applyTimeoutR route r3
  let r5 ← applyTracingR route r4
  let r6 ← applyHeaderMatchR env route r5
  let cs ← buildClusters env ns0 route.matchPath route.services
  pure { r6 with clusters := cs }

/-- The `" -> "`-joined cycle path over the visited ancestor identifiers. -/
def cyclePath (visited : List FullName) (dest : FullName) : String :=
  joinSep " -> " ((visited ++ [dest]).map fun v => v.ns ++ "/" ++ v.name)

/-! ### `processIngressRoutes` and `processIngressRouteTCPProxy`

`processRouteList` embeds the `for _, route := range ir.Spec.Routes` loop; the
returned `Bool` is `true` when the loop was left through one of the Go
`return` statements (in which case the trailing `SetValid` is skipped).
Recursion into delegation targets is supplied through `rec`; the resource
whose routes are processed contributes only its namespace (`ns0`), since
`visited2` already carries `visited ++ [fullName ir]`.  Both recursive walks
take a fuel parameter; `fuelSufficient` below shows the pipeline's fuel is
never exhausted. -/

def processRouteList (env : BuilderEnv)
    (rec : ObjWriter → IngressRoute → String → BuildState → Option (ObjWriter × BuildState))
    (ns0 pfxMatch : String) (visited2 : List FullName) (host : String) (enforceTLS : Bool) :
    List RouteEntry → ObjWriter → BuildState → Option (ObjWriter × BuildState × Bool)
  | [], sw, st => some (sw, st, false)
  | route :: rest, sw, st =>
    if route.services ≠ [] ∧ route.delegate ≠ none then
      some (sw.setInvalid ("route " ++ quoteStr route.matchPath ++
        ": cannot specify services and delegate in the same route"), st, true)
    else if route.services ≠ [] then
      match buildRouteForEntry env ns0 pfxMatch enforceTLS route with
      | .error e => some (sw.setInvalid e, st, true)
      | .ok r =>
        let st1 := addVHRoute host r st
        let st2 := if enforceTLS then addSVHRoute host r st1 else st1
        processRouteList env rec ns0 pfxMatch visited2 host enforceTLS rest sw st2
    else
      match route.delegate with
      | none => processRouteList env rec ns0 pfxMatch visited2 host enforceTLS rest sw st
      | some d =>
        let nsd := if d.ns = "" then ns0 else d.ns
        match irLookup env ⟨nsd, d.name⟩ with
        | none => processRouteList env rec ns0 pfxMatch visited2 host enforceTLS rest sw st
        | some dest =>
          let st1 := eraseOrphaned (fullName dest) st
          if fullName dest ∈ visited2 then
            some (sw.setInvalid ("route creates a delegation cycle: " ++
              cyclePath visited2 (fullName dest)), st1, true)
          else
            match rec (newWriter (fullName dest)) dest route.matchPath st1 with
            | none => none
            | some (swd, std) =>
              processRouteList env rec ns0 pfxMatch visited2 host enforceTLS rest sw
                (commitW swd std)

def processIngressRoutes (env : BuilderEnv) :
    Nat → ObjWriter → IngressRoute → String → List FullName → String → Bool → BuildState →
    Option (ObjWriter × BuildState)
  | 0, _, _, _, _, _, _, _ => none
  | fuel + 1, sw, ir, pfxMatch, visited, host, enforceTLS, st =>
    let visited2 := visited ++ [fullName ir]
    match processRouteList env
        (fun sw2 dest m st2 => processIngressRoutes env fuel sw2 dest m visited2 host enforceTLS st2)
        ir.ns pfxMatch visited2 host enforceTLS ir.routes sw st with
    | none => none
    | some (sw2, st2, true) => some (sw2, st2)
    | some (sw2, st2, false) => some (sw2.setValid, st2)

def buildTCPClusters (env : BuilderEnv) (ns0 : String) :
    List TCPServiceRef → Except String (List DagCluster)
  | [] => .ok []
  | service :: rest =>
    match env.lookupService ⟨ns0, service.name⟩ service.port with
    | none =>
      .error ("tcpproxy: service " ++ ns0 ++ "/" ++ service.name ++ "/" ++
        intStr service.port ++ ": not found")
    | some s => do
      let cs ← buildTCPClusters env ns0 rest
      pure ({ upstream := s
              loadBalancerPolicy := service.strategy
              weight := 0
              httpHealthCheckPolicy := none
              upstreamValidation := none
              protocol := s.protocol
              idleTimeout := none } :: cs)

def processIngressRouteTCPProxy (env : BuilderEnv) :
    Nat → ObjWriter → IngressRoute → List FullName → String → BuildState →
    Option (ObjWriter × BuildState)
  | 0, _, _, _, _, _ => none
  | fuel + 1, sw, ir, visited, host, st =>
    let visited2 := visited ++ [fullName ir]
    match ir.tcpproxy with
    | none => some (sw, st)
    | some tcpproxy =>
      if tcpproxy.services ≠ [] ∧ tcpproxy.delegate ≠ none then
        some (sw.setInvalid "tcpproxy: cannot specify services and delegate in the same tcpproxy",
          st)
      else if tcpproxy.services ≠ [] then
        match buildTCPClusters env ir.ns tcpproxy.services with
        | .error e => some (sw.setInvalid e, st)
        | .ok proxy =>
          some (sw.setValid, updateSVHost host (fun sv => { sv with tcpproxy := some proxy }) st)
      else
        match tcpproxy.delegate with
        | none => some (sw, st)
        | some d =>
          let nsd := if d.ns = "" then ir.ns else d.ns
          match irLookup env ⟨nsd, d.name⟩ with
          | none => some (sw, st)
          | some dest =>
            let st1 := eraseOrphaned (fullName dest) st
            if fullName dest ∈ visited2 then
              some (sw.setInvalid ("tcpproxy creates a delegation cycle: " ++
                cyclePath visited2 (fullName dest)), st1)
            else
              match processIngressRouteTCPProxy env fuel (newWriter (fullName dest)) dest
                  visited2 host st1 with
              | none => none
              | some (swd, std) => some (sw, commitW swd std)

/-! ### `computeIngressRoute` and the pipeline -/

def computeIngressRouteTail (env : BuilderEnv) (fuel : Nat) (sw : ObjWriter)
    (ir : IngressRoute) (host : String) (enforceTLS passthrough : Bool)
    (st : BuildState) : BuildState :=
  let p : ObjWriter × BuildState :=
    if ir.tcpproxy ≠ none ∧ (passthrough ∨ enforceTLS) then
      match processIngressRouteTCPProxy env fuel sw ir [] host st with
      | none => (sw, st)
      | some q => q
    else (sw, st)
  match processIngressRoutes env fuel p.1 ir "" [] host
      (decide (ir.tcpproxy = none) && enforceTLS) p.2 with
  | none => commitW p.1 p.2
  | some (sw2, st2) => commitW sw2 st2

def computeIngressRoute (env : BuilderEnv) (fuel : Nat) (st : BuildState)
    (ir : IngressRoute) : BuildState :=
  let sw := newWriter (fullName ir)
  match ir.virtualHost with
  | none => commitW sw (setOrphaned (fullName ir) st)
  | some vh =>
    if ¬ rootAllowed env ir.ns then
      commitW (sw.setInvalid "root IngressRoute cannot be defined in this namespace") st
    else if isBlank vh.fqdn then
      commitW (sw.setInvalid "Spec.VirtualHost.Fqdn must be specified") st
    else
      let host := vh.fqdn
      match vh.tls with
      | none => computeIngressRouteTail env fuel sw ir host false false st
      | some tls =>
        if tls.secretName = "" ∧ tls.passthrough then
          computeIngressRouteTail env fuel sw ir host false true st
        else
          let secretName := splitSecret tls.secretName ir.ns
          match env.lookupSecret secretName with
          | .error e =>
            commitW (sw.setInvalid ("Spec.VirtualHost.TLS Secret " ++ quoteStr tls.secretName ++
              " is invalid: " ++ e)) st
          | .ok sec =>
            if ¬ env.delegationPermitted secretName ir.ns then
              commitW (sw.setInvalid ("Spec.VirtualHost.TLS Secret " ++ quoteStr tls.secretName ++
                " certificate delegation not permitted")) st
            else
              let st1 := updateSVHost host (fun sv =>
                { sv with
                  secret := some sec
                  minTLSVersion := annotationMinTLSVersion tls.minimumProtocolVersion
                  maxTLSVersion := annotationMaxProtoVersion tls.maximumProtocolVersion }) st
              computeIngressRouteTail env fuel sw ir host true false st1

def irFqdn (ir : IngressRoute) : Option String := ir.virtualHost.map (·.fqdn)

def conflictMsg (f : String) (grp : List IngressRoute) : String :=
  "fqdn " ++ quoteStr f ++ " is used in multiple IngressRoutes: " ++
    joinSep ", " (sortStrings (grp.map fun ir => ir.ns ++ "/" ++ ir.name))

/-- The root resources (those declaring a virtual host). -/
def irRoots (env : BuilderEnv) : List IngressRoute :=
  env.ingressroutes.filter fun ir => ir.virtualHost.isSome

/-- The delegate-only resources. -/
def irDelegates (env : BuilderEnv) : List IngressRoute :=
  env.ingressroutes.filter fun ir => ir.virtualHost.isNone

/-- All roots claiming FQDN `f`. -/
def fqdnGroup (env : BuilderEnv) (f : String) : List IngressRoute :=
  (irRoots env).filter fun ir => irFqdn ir = some f

/-- The distinct declared FQDNs. -/
def irFqdns (env : BuilderEnv) : List String :=
  ((irRoots env).filterMap irFqdn).dedup

/-- One step of the FQDN-uniqueness pass: a singleton group passes through,
a larger group has all of its members marked Invalid. -/
def virStep (env : BuilderEnv) (acc : List IngressRoute × BuildState) (f : String) :
    List IngressRoute × BuildState :=
  match fqdnGroup env f with
  | [single] => (acc.1 ++ [single], acc.2)
  | grp =>
    (acc.1, { acc.2 with statuses :=
      acc.2.statuses ++ grp.map fun ir => (fullName ir, ⟨false, conflictMsg f grp⟩) })

/-- `validIngressRoutes`: resources without a virtual host pass through; roots
are grouped by FQDN, singleton groups pass, larger groups are all marked
Invalid.  (Go iterates maps in unspecified order; the embedding fixes the
deterministic first-appearance order, which no proved property depends on.) -/
def validIngressRoutes (env : BuilderEnv) (st : BuildState) :
    List IngressRoute × BuildState :=
  (irFqdns env).foldl (virStep env) (irDelegates env, st)

/-- The status events `virStep` appends for FQDN `f`. -/
def virBatchS (env : BuilderEnv) (f : String) : List (FullName × StatusRec) :=
  match fqdnGroup env f with
  | [_] => []
  | grp => grp.map fun ir => (fullName ir, ⟨false, conflictMsg f grp⟩)

/-- The valid resources `virStep` appends for FQDN `f`. -/
def virBatchV (env : BuilderEnv) (f : String) : List IngressRoute :=
  match fqdnGroup env f with
  | [single] => [single]
  | _ => []

/-- The dag build pass over all IngressRoutes (`computeIngressRoutes`).  The
fuel bound `|ingressroutes| + 1` is shown sufficient below. -/
def computeIngressRoutes (env : BuilderEnv) : BuildState :=
  let fuel := env.ingressroutes.length + 1
  let vs := validIngressRoutes env initialBuildState
  vs.1.foldl (computeIngressRoute env fuel) vs.2

/-- First status event recorded for a key in an event list. -/
def listStatusOf (l : List (FullName × StatusRec)) (m : FullName) : Option StatusRec :=
  (l.find? fun p => p.1 = m).map (·.2)

/-! ### `internal/envoy/route.go` — `weightedClusters`

`HTTPServiceW.clusterName` stands for `Clustername(&service.TCPService)` (the
naming helper is outside the embedded files); `weight` is the service weight. -/

structure HTTPServiceW where
  clusterName : String
  weight : Nat
deriving DecidableEq, Repr

structure WeightedClusterOut where
  clusters : List (String × Nat)
  totalWeight : Nat
deriving DecidableEq, Repr

def strLt (s t : String) : Bool := strLe s t && !strLe t s

/-- `clusterWeightByName.Less`: name first, then weight. -/
def cwLess (p q : String × Nat) : Bool :=
  if p.1 = q.1 then decide (p.2 < q.2) else strLt p.1 q.1

def weightedClusters (services : List HTTPServiceW) : WeightedClusterOut :=
  let total := (services.map (·.weight)).sum
  let cl := services.map fun s => (s.clusterName, s.weight)
  let cl2 := if total = 0 then cl.map (fun p => (p.1, 1)) else cl
  let total2 := if total = 0 then services.length else total
  { clusters := sortLe (fun p q => !cwLess q p) cl2, totalWeight := total2 }

/-! ### Envoy listener objects -/

def ENVOY_HTTPS_LISTENER : String := "ingress_https"
def ENVOY_FALLBACK_ROUTECONFIG : String := "ingress_fallbackcert"
def wellknownTCPProxy : String := "envoy.tcp_proxy"
def wellknownHTTPConnMgr : String := "envoy.http_connection_manager"

/-- The two filter shapes the visitor builds: an HTTP connection manager
(carrying its RDS route-configuration name and stat name) or a TCP proxy
(carrying either a single cluster or a weighted cluster list). -/
inductive EnvoyFilter
  | httpConnMgr (routeConfigName statName : String)
  | tcpProxyF (statName : String) (cluster : Option String)
      (weighted : Option (List (String × Nat)))
deriving DecidableEq, Repr

def EnvoyFilter.fnameOf : EnvoyFilter → String
  | .httpConnMgr _ _ => wellknownHTTPConnMgr
  | .tcpProxyF _ _ _ => wellknownTCPProxy

/-- Per `listener_adobe.go`: true when the list contains a `tcp_proxy` filter. -/
def isTCPProxyFilter (filters : List EnvoyFilter) : Bool :=
  filters.any fun f => f.fnameOf = wellknownTCPProxy

/-- Modelled from the spec: the stable sorter key for TCP weighted clusters
(`internal/sorter` is outside the embedded files) is the cluster name. -/
def tcpWLe (p q : String × Nat) : Bool := strLe p.1 q.1

/-- `envoy.TCPProxy`: one cluster → plain cluster reference; otherwise a
weighted cluster list where each zero weight is individually replaced by 1,
stably sorted.  `cname` stands for `envoy.Clustername`. -/
def envoyTCPProxy (cname : DagCluster → String) (statName : String)
    (proxy : List DagCluster) : EnvoyFilter :=
  match proxy with
  | [c] => .tcpProxyF statName (some (cname c)) none
  | cs =>
    let clusters := cs.map fun c => (cname c, if c.weight = 0 then 1 else c.weight)
    .tcpProxyF statName none (some (sortLe tcpWLe clusters))

structure DownstreamTlsCtx where
  secret : String
  minVer : Nat
  maxVer : Nat
  validation : Option String
  alpn : List String
deriving DecidableEq, Repr

/-- Modelled from the spec: `DownstreamTLSContextAdobe` packages certificate,
resolved minimum/maximum version, downstream validation and ALPN protocols
into the chain's TLS context (the envoy helper is outside the embedded
files). -/
def DownstreamTLSContextAdobe (secret : String) (minV maxV : Nat)
    (validation : Option String) (alpn : List String) : DownstreamTlsCtx :=
  ⟨secret, minV, maxV, validation, alpn⟩

/-- Modelled from the spec: the plain `DownstreamTLSContext` (fallback chain)
takes only a minimum version; the maximum stays at the highest supported. -/
def DownstreamTLSContextPlain (secret : String) (minV : Nat)
    (validation : Option String) (alpn : List String) : DownstreamTlsCtx :=
  ⟨secret, minV, TLSv1_3, validation, alpn⟩

structure FilterChain where
  fcName : String
  serverNames : List String
  transportProtocol : String
  transportSocket : Option DownstreamTlsCtx
  filters : List EnvoyFilter
deriving DecidableEq, Repr

def FilterChainTLS (domain : String) (downstream : Option DownstreamTlsCtx)
    (filters : List EnvoyFilter) : FilterChain :=
  { fcName := ""
    serverNames := [domain]
    transportProtocol := ""
    transportSocket := downstream
    filters := filters }

def FilterChainTLSFallback (downstream : Option DownstreamTlsCtx)
    (filters : List EnvoyFilter) : FilterChain :=
  { fcName := "fallback-certificate"
    serverNames := []
    transportProtocol := "tls"
    transportSocket := downstream
    filters := filters }

def ContainsFallbackFilterChain (fcs : List FilterChain) : Bool :=
  fcs.any fun fc => fc.fcName = "fallback-certificate"

def GetDownstreamTLSContext (fc : FilterChain) : Option DownstreamTlsCtx :=
  fc.transportSocket

/-- Listener visitor configuration (the TLS-relevant part). -/
structure LVCfg where
  minimumProtocolVersion : Nat
deriving DecidableEq, Repr

/-- `ListenerVisitorConfig.minProtoVersion`: the configured value, floored at
TLS 1.1. -/
def lvcMinProtoVersion (lvc : LVCfg) : Nat :=
  if TLSv1_1 < lvc.minimumProtocolVersion then lvc.minimumProtocolVersion else TLSv1_1

/-- `listener_adobe.go` `maxProtoVersion`: `TLS_AUTO` means highest supported. -/
def maxProtoVersion (version : Nat) : Nat :=
  if version = TLS_AUTO then TLSv1_3 else version

/-- A `dag.SecureVirtualHost` as the listener visitor reads it. -/
structure SecureVirtualHostV where
  vhName : String
  secret : Option String
  minProtoVersion : Nat
  maxProtoVersionReq : Nat
  downstreamValidation : Option String
  tcpproxy : Option (List DagCluster)
  fallbackCertificate : Option String
deriving DecidableEq, Repr

/-- The grouping scan over existing chains (`listener.go` lines 441–459):
find the first chain that carries a transport socket, is not a raw-TCP proxy
chain, and whose TLS context equals the new one; add the host name to its
server names and re-sort.  `none` when no chain matches. -/
def tryGroup (dtls : Option DownstreamTlsCtx) (nm : String) :
    List FilterChain → Option (List FilterChain)
  | [] => none
  | fc :: rest =>
    if fc.transportSocket = none then (tryGroup dtls nm rest).map (fc :: ·)
    else if isTCPProxyFilter fc.filters then (tryGroup dtls nm rest).map (fc :: ·)
    else if dtls = GetDownstreamTLSContext fc then
      some ({ fc with serverNames := sortStrings (fc.serverNames ++ [nm]) } :: rest)
    else (tryGroup dtls nm rest).map (fc :: ·)

/-- The `case *dag.SecureVirtualHost` arm of the listener visitor's `visit`,
acting on the secure listener's filter-chain list. -/
def visitSecureVirtualHost (lvc : LVCfg) (cname : DagCluster → String)
    (chains : List FilterChain) (vh : SecureVirtualHostV) : List FilterChain :=
  let filters : List EnvoyFilter :=
    match vh.tcpproxy with
    | none => [.httpConnMgr ENVOY_HTTPS_LISTENER ENVOY_HTTPS_LISTENER]
    | some p => [envoyTCPProxy cname ENVOY_HTTPS_LISTENER p]
  let alpnProtos : List String :=
    match vh.tcpproxy with
    | none => ["h2", "http/1.1"]
    | some _ => []
  let downstreamTLS : Option DownstreamTlsCtx :=
    vh.secret.map fun sec =>
      DownstreamTLSContextAdobe sec (max (lvcMinProtoVersion lvc) vh.minProtoVersion)
        (maxProtoVersion vh.maxProtoVersionReq) vh.downstreamValidation alpnProtos
  let grouped : Option (List FilterChain) :=
    if vh.tcpproxy = none ∧ vh.secret ≠ none then tryGroup downstreamTLS vh.vhName chains
    else none
  let chains2 :=
    match grouped with
    | some merged => merged
    | none => chains ++ [FilterChainTLS vh.vhName downstreamTLS filters]
  match vh.fallbackCertificate with
  | none => chains2
  | some fb =>
    if ContainsFallbackFilterChain chains2 then chains2
    else chains2 ++ [FilterChainTLSFallback
      (some (DownstreamTLSContextPlain fb (lvcMinProtoVersion lvc)
        vh.downstreamValidation alpnProtos))
      [.httpConnMgr ENVOY_FALLBACK_ROUTECONFIG ENVOY_HTTPS_LISTENER]]

/-! ### `ListenerCache.Query` -/

/-- A cached listener object; `payload` stands for all fields other than the
name (address, filter chains, …). -/
structure ListenerObj where
  lname : String
  payload : Nat
deriving DecidableEq, Repr

structure ListenerCacheM where
  values : List (String × ListenerObj)
  staticValues : List (String × ListenerObj)
deriving DecidableEq, Repr

/-- Modelled from the spec: the canonical ordering key of listeners
(`internal/sorter` is outside the embedded files) is the listener name. -/
def lobLe (a b : ListenerObj) : Bool := strLe a.lname b.lname

/-- The per-name resolution step of `Query`: dynamic values first, then the
static table, else nothing. -/
def cacheResolve (c : ListenerCacheM) (n : String) : Option ListenerObj :=
  match alistGet n c.values with
  | some v => some v
  | none => alistGet n c.staticValues

/-- `ListenerCache.Query`: resolve every requested name (silently dropping
unknown ones) and return the hits stably sorted. -/
def cacheQuery (c : ListenerCacheM) (names : List String) : List ListenerObj :=
  sortLe lobLe (names.filterMap (cacheResolve c))

/-! ### Concrete instances used in the examples below -/

def svcS1 : UpstreamService := ⟨"s1", "default", 80, ""⟩

def lookupS1 : FullName → Int → Option UpstreamService :=
  fun m p => if m = ⟨"default", "s1"⟩ ∧ p = 80 then some svcS1 else none

/-- A concrete environment around a fixed resource list; policy helpers are
instantiated with the simplest lawful behaviours. -/
def mkEnv (irs : List IngressRoute) : BuilderEnv :=
  { ingressroutes := irs
    rootNamespaces := []
    disablePermitInsecure := false
    lookupService := lookupS1
    lookupSecret := fun _ => .error "secret not found"
    delegationPermitted := fun _ _ => true
    lookupUpstreamValidation := fun _ _ => .ok none
    headersPolicy := fun s _ => .ok s
    headerConditionsValid := fun _ => true
    mergeHeaderConditions := fun l => l }

def entryTerminal (m : String) : RouteEntry :=
  ⟨m, [⟨"s1", 80, 0, "", none, none, none⟩], none, false, false, "",
    none, none, [], none, none, none, none, none, none, []⟩

def entryDelegate (m nm : String) : RouteEntry :=
  ⟨m, [], some ⟨nm, ""⟩, false, false, "",
    none, none, [], none, none, none, none, none, none, []⟩

def irA1 : IngressRoute :=
  ⟨"a", "default", some ⟨"example.com", none⟩, [entryDelegate "/" "b"], none⟩

def irB1 : IngressRoute :=
  ⟨"b", "default", none, [entryDelegate "/" "a", entryTerminal "/"], none⟩

/-- Cycle through a delegate: root `a` → delegate `b`, whose first entry
closes the cycle back to `a` and whose second entry is terminal. -/
def envC1 : BuilderEnv := mkEnv [irA1, irB1]

/-- Cycle below the root's first entry; the root's second entry is terminal. -/
def envC1b : BuilderEnv := mkEnv
  [⟨"a", "default", some ⟨"example.com", none⟩,
     [entryDelegate "/" "b", entryTerminal "/"], none⟩,
   ⟨"b", "default", none, [entryDelegate "/" "a"], none⟩]

/-- A two-resource delegation cycle plus an unrelated root `c`. -/
def envC6 : BuilderEnv := mkEnv
  [⟨"a", "default", some ⟨"a.com", none⟩, [entryDelegate "/" "b"], none⟩,
   ⟨"b", "default", none, [entryDelegate "/" "a"], none⟩,
   ⟨"c", "default", some ⟨"c.com", none⟩, [entryTerminal "/"], none⟩]

/-- Root-to-root delegation: both `a` and `b` declare virtual hosts and `a`
delegates to `b`, whose entry is terminal. -/
def envC9 : BuilderEnv := mkEnv
  [⟨"a", "default", some ⟨"a.com", none⟩, [entryDelegate "/" "b"], none⟩,
   ⟨"b", "default", some ⟨"b.com", none⟩, [entryTerminal "/"], none⟩]

/-- Two roots sharing an FQDN, one delegate, and an unconflicted root. -/
def envC2 : BuilderEnv := mkEnv
  [⟨"r1", "default", some ⟨"dup.com", none⟩, [entryTerminal "/"], none⟩,
   ⟨"r2", "other", some ⟨"dup.com", none⟩, [entryTerminal "/"], none⟩,
   ⟨"d1", "default", none, [], none⟩,
   ⟨"r3", "default", some ⟨"ok.com", none⟩, [entryTerminal "/"], none⟩]

/-- A root whose FQDN carries a wildcard. -/
def envC10 : BuilderEnv := mkEnv
  [⟨"w", "default", some ⟨"*.example.com", none⟩, [entryTerminal "/"], none⟩]

/-- Three TCP clusters with weights 2, 0 and 3 (`envoy.TCPProxy` input). -/
def tcpCluster (nm : String) (w : Nat) : DagCluster :=
  ⟨⟨nm, "default", 80, ""⟩, "", w, none, none, "", none⟩

def cnameUpstream : DagCluster → String := fun c => c.upstream.name

def tcpClusters203 : List DagCluster :=
  [tcpCluster "a" 2, tcpCluster "b" 0, tcpCluster "c" 3]

/-- Dropping a resource's virtual-host declaration (turning a root into a
delegate-only resource). -/
def eraseVH (ir : IngressRoute) : IngressRoute := { ir with virtualHost := none }

/-- Dropping every virtual-host declaration in the source set. -/
def envEraseVH (env : BuilderEnv) : BuilderEnv :=
  { env with ingressroutes := env.ingressroutes.map eraseVH }

/-- A terminal route entry requesting a two-hour route idle timeout whose one
service requests a 30-minute cluster idle timeout. -/
def entryIdle2h : RouteEntry :=
  ⟨"/", [⟨"s1", 80, 0, "", none, none, some 1800000000000⟩], none, false, false, "",
    none, none, [], none, none, none, some 7200000000000, none, none, []⟩

/-- A terminal route entry requesting a zero (disabled) idle timeout. -/
def entryIdle0 : RouteEntry :=
  ⟨"/", [⟨"s1", 80, 0, "", none, none, none⟩], none, false, false, "",
    none, none, [], none, none, none, some 0, none, none, []⟩

/-- The dag route projected from `entryIdle2h`: both idle timeouts clamped or
passed through. -/
def routeIdle2hOut : DagRoute :=
  ⟨"/", false, false, "", none, none, [], none, none, none, some 3600000000000, none, none, [],
    [⟨⟨"s1", "default", 80, ""⟩, "", 0, none, none, "", some 1800000000000⟩]⟩

/-! ### Concrete listener-visitor instances -/

def lvc0 : LVCfg := ⟨0⟩

/-- Two secure virtual hosts sharing the same secret and TLS parameters. -/
def vhA : SecureVirtualHostV :=
  ⟨"a.example.com", some "default/tls", TLSv1_1, TLS_AUTO, none, none, none⟩

def vhB : SecureVirtualHostV :=
  ⟨"b.example.com", some "default/tls", TLSv1_1, TLS_AUTO, none, none, none⟩

/-- A secure virtual host with a TCP proxy target. -/
def vhTCP : SecureVirtualHostV :=
  ⟨"tcp.example.com", some "default/tls", TLSv1_1, TLS_AUTO, none,
    some [tcpCluster "a" 2], none⟩

/-- A host requesting an explicit maximum protocol version (TLS 1.2). -/
def vhMax12 : SecureVirtualHostV :=
  ⟨"m.example.com", some "default/tls", TLSv1_1, TLSv1_2, none, none, none⟩

/-- A raw-TCP proxy filter chain already on the secure listener; it even
carries the same TLS context as `vhA`/`vhB` would produce. -/
def fcRawTCP : FilterChain :=
  ⟨"", ["tcp.example.com"], "tls",
    some (DownstreamTLSContextAdobe "default/tls" TLSv1_1 TLSv1_3 none []),
    [envoyTCPProxy cnameUpstream ENVOY_HTTPS_LISTENER [tcpCluster "a" 2]]⟩

/-- The chain visiting `vhA` appends to an empty secure listener. -/
def fcA : FilterChain :=
  FilterChainTLS "a.example.com"
    (some (DownstreamTLSContextAdobe "default/tls" TLSv1_1 TLSv1_3 none
      ["h2", "http/1.1"]))
    [.httpConnMgr ENVOY_HTTPS_LISTENER ENVOY_HTTPS_LISTENER]

/-- Invariant of one route-walk step under host `host`: status events are only
appended, virtual-host keys other than `host` are untouched, and the orphaned
set can only shrink. -/
def walkInv (host : String) (st st' : BuildState) : Prop :=
  (∃ Δ, st'.statuses = st.statuses ++ Δ) ∧
  (∀ k ∈ st'.virtualhosts.map Prod.fst, k = host ∨ k ∈ st.virtualhosts.map Prod.fst) ∧
  st'.orphaned ⊆ st.orphaned

/-! ## Theorems

General-purpose lemmas first (sorting, status lookup, state plumbing), then
one theorem per claim with its witness or counterexample. -/

theorem insertLe_perm {α : Type} (le : α → α → Bool) (a : α) (l : List α) :
    (insertLe le a l).Perm (a :: l) := by
  induction l with
  | nil => simp [insertLe]
  | cons b t ih =>
    simp only [insertLe]
    by_cases h : le a b = true
    · simp [h]
    · rw [if_neg h]
      exact (ih.cons b).trans (List.Perm.swap a b t)

theorem sortLe_perm {α : Type} (le : α → α → Bool) (l : List α) :
    (sortLe le l).Perm l := by
  induction l with
  | nil => simp [sortLe]
  | cons a t ih =>
    have : sortLe le (a :: t) = insertLe le a (sortLe le t) := rfl
    rw [this]
    exact (insertLe_perm le a (sortLe le t)).trans (ih.cons a)

theorem mem_sortLe {α : Type} (le : α → α → Bool) (l : List α) (a : α) :
    a ∈ sortLe le l ↔ a ∈ l := (sortLe_perm le l).mem_iff

theorem pairwise_insertLe {α : Type} (le : α → α → Bool)
    (htot : ∀ a b, le a b = true ∨ le b a = true)
    (htrans : ∀ a b c, le a b = true → le b c = true → le a c = true)
    (a : α) (l : List α) (h : l.Pairwise (fun x y => le x y = true)) :
    (insertLe le a l).Pairwise (fun x y => le x y = true) := by
  induction l with
  | nil => simp [insertLe]
  | cons b t ih =>
    rcases List.pairwise_cons.mp h with ⟨hb, ht⟩
    simp only [insertLe]
    by_cases hab : le a b = true
    · rw [if_pos hab]
      refine List.pairwise_cons.mpr ⟨?_, h⟩
      intro x hx
      rcases List.mem_cons.mp hx with rfl | hxt
      · exact hab
      · exact htrans a b x hab (hb x hxt)
    · rw [if_neg hab]
      refine List.pairwise_cons.mpr ⟨?_, ih ht⟩
      intro x hx
      have hx2 : x = a ∨ x ∈ t := by
        have := (insertLe_perm le a t).mem_iff.mp hx
        simpa using this
      rcases hx2 with rfl | hxt
      · rcases htot x b with h1 | h1
        · exact absurd h1 hab
        · exact h1
      · exact hb x hxt

theorem pairwise_sortLe {α : Type} (le : α → α → Bool)
    (htot : ∀ a b, le a b = true ∨ le b a = true)
    (htrans : ∀ a b c, le a b = true → le b c = true → le a c = true)
    (l : List α) : (sortLe le l).Pairwise (fun x y => le x y = true) := by
  induction l with
  | nil => simp [sortLe]
  | cons a t ih =>
    have : sortLe le (a :: t) = insertLe le a (sortLe le t) := rfl
    rw [this]
    exact pairwise_insertLe le htot htrans a (sortLe le t) ih

theorem strLeAux_total : ∀ as bs : List Char,
    strLeAux as bs = true ∨ strLeAux bs as = true := by
  intro as
  induction as with
  | nil => intro bs; left; rfl
  | cons a t ih =>
    intro bs
    cases bs with
    | nil => right; rfl
    | cons b u =>
      simp only [strLeAux]
      rcases Nat.lt_trichotomy a.val.toNat b.val.toNat with h | h | h
      · left
        simp [h]
      · have h1 : ¬ a.val.toNat < b.val.toNat := by omega
        have h2 : ¬ b.val.toNat < a.val.toNat := by omega
        simp only [h1, h2, if_false, h]
        simpa [h1, h2, h] using ih u
      · right
        simp [h]

theorem strLeAux_trans : ∀ as bs cs : List Char,
    strLeAux as bs = true → strLeAux bs cs = true → strLeAux as cs = true := by
  intro as
  induction as with
  | nil => intro bs cs _ _; rfl
  | cons a t ih =>
    intro bs cs h1 h2
    cases bs with
    | nil => simp [strLeAux] at h1
    | cons b u =>
      cases cs with
      | nil => simp [strLeAux] at h2
      | cons c v =>
        simp only [strLeAux] at h1 h2 ⊢
        rcases Nat.lt_trichotomy a.val.toNat b.val.toNat with hab | hab | hab
        · rcases Nat.lt_trichotomy b.val.toNat c.val.toNat with hbc | hbc | hbc
          · have : a.val.toNat < c.val.toNat := by omega
            simp [this]
          · have : a.val.toNat < c.val.toNat := by omega
            simp [this]
          · exfalso
            have h2' : ¬ b.val.toNat < c.val.toNat := by omega
            simp [h2', hbc] at h2
        · rcases Nat.lt_trichotomy b.val.toNat c.val.toNat with hbc | hbc | hbc
          · have : a.val.toNat < c.val.toNat := by omega
            simp [this]
          · have hac : ¬ a.val.toNat < c.val.toNat := by omega
            have hca : ¬ c.val.toNat < a.val.toNat := by omega
            simp only [hac, if_false, hca]
            have h1' : ¬ a.val.toNat < b.val.toNat := by omega
            have h1'' : ¬ b.val.toNat < a.val.toNat := by omega
            simp only [h1', if_false, h1''] at h1
            have h2' : ¬ b.val.toNat < c.val.toNat := by omega
            have h2'' : ¬ c.val.toNat < b.val.toNat := by omega
            simp only [h2', if_false, h2''] at h2
            exact ih u v (by simpa using h1) (by simpa using h2)
          · exfalso
            have h2' : ¬ b.val.toNat < c.val.toNat := by omega
            simp [h2', hbc] at h2
        · exfalso
          have h1' : ¬ a.val.toNat < b.val.toNat := by omega
          simp [h1', hab] at h1

theorem strLe_total (s t : String) : strLe s t = true ∨ strLe t s = true :=
  strLeAux_total s.data t.data

theorem strLe_trans (s t u : String) :
    strLe s t = true → strLe t u = true → strLe s u = true :=
  strLeAux_trans s.data t.data u.data

/-! ### Status-lookup lemmas -/

theorem listStatusOf_cons_pos {e : FullName × StatusRec} {t : List (FullName × StatusRec)}
    {m : FullName} (he : e.1 = m) : listStatusOf (e :: t) m = some e.2 := by
  simp [listStatusOf, List.find?_cons, he]

theorem listStatusOf_cons_neg {e : FullName × StatusRec} {t : List (FullName × StatusRec)}
    {m : FullName} (he : ¬ e.1 = m) : listStatusOf (e :: t) m = listStatusOf t m := by
  simp [listStatusOf, List.find?_cons, he]

theorem listStatusOf_append_some {l1 : List (FullName × StatusRec)} {m : FullName}
    {v : StatusRec} (l2 : List (FullName × StatusRec)) (h : listStatusOf l1 m = some v) :
    listStatusOf (l1 ++ l2) m = some v := by
  induction l1 with
  | nil => simp [listStatusOf] at h
  | cons e t ih =>
    by_cases he : e.1 = m
    · rw [List.cons_append, listStatusOf_cons_pos he]
      rw [listStatusOf_cons_pos he] at h
      exact h
    · rw [List.cons_append, listStatusOf_cons_neg he]
      rw [listStatusOf_cons_neg he] at h
      exact ih h

theorem listStatusOf_append_none {l1 : List (FullName × StatusRec)} {m : FullName}
    (l2 : List (FullName × StatusRec)) (h : listStatusOf l1 m = none) :
    listStatusOf (l1 ++ l2) m = listStatusOf l2 m := by
  induction l1 with
  | nil => simp
  | cons e t ih =>
    by_cases he : e.1 = m
    · rw [listStatusOf_cons_pos he] at h
      exact absurd h (by simp)
    · rw [listStatusOf_cons_neg he] at h
      rw [List.cons_append, listStatusOf_cons_neg he]
      exact ih h

theorem listStatusOf_none_of_keys {l : List (FullName × StatusRec)} {m : FullName}
    (h : ∀ e ∈ l, e.1 ≠ m) : listStatusOf l m = none := by
  induction l with
  | nil => rfl
  | cons e t ih =>
    rw [listStatusOf_cons_neg (h e (by simp))]
    exact ih fun x hx => h x (by simp [hx])

theorem listStatusOf_of_all_eq {l : List (FullName × StatusRec)} {m : FullName}
    {v : StatusRec} (hv : ∀ e ∈ l, e.2 = v) (hm : ∃ e ∈ l, e.1 = m) :
    listStatusOf l m = some v := by
  induction l with
  | nil => simp at hm
  | cons e t ih =>
    by_cases he : e.1 = m
    · rw [listStatusOf_cons_pos he, hv e (by simp)]
    · rw [listStatusOf_cons_neg he]
      rcases hm with ⟨x, hx, hxm⟩
      rcases List.mem_cons.mp hx with rfl | hxt
      · exact absurd hxm he
      · exact ih (fun y hy => hv y (by simp [hy])) ⟨x, hxt, hxm⟩

theorem statusOf_ext {st st' : BuildState} {m : FullName} {v : StatusRec}
    (hΔ : ∃ Δ, st'.statuses = st.statuses ++ Δ) (h : statusOf st m = some v) :
    statusOf st' m = some v := by
  rcases hΔ with ⟨Δ, hΔ⟩
  have : statusOf st' m = listStatusOf (st.statuses ++ Δ) m := by
    show listStatusOf st'.statuses m = _
    rw [hΔ]
  rw [this]
  exact listStatusOf_append_some Δ h

/-! ### Walk invariants -/

theorem walkInv_refl (host : String) (st : BuildState) : walkInv host st st :=
  ⟨⟨[], by simp⟩, fun k hk => Or.inr hk, fun x hx => hx⟩

theorem walkInv_trans {host : String} {s1 s2 s3 : BuildState}
    (h12 : walkInv host s1 s2) (h23 : walkInv host s2 s3) : walkInv host s1 s3 := by
  obtain ⟨⟨d1, hd1⟩, hk1, ho1⟩ := h12
  obtain ⟨⟨d2, hd2⟩, hk2, ho2⟩ := h23
  refine ⟨⟨d1 ++ d2, by rw [hd2, hd1, List.append_assoc]⟩, ?_, fun x hx => ho1 (ho2 hx)⟩
  intro k hk
  rcases hk2 k hk with rfl | hk'
  · exact Or.inl rfl
  · exact hk1 k hk'

theorem walkInv_commitW (host : String) (w : ObjWriter) (st : BuildState) :
    walkInv host st (commitW w st) := by
  unfold commitW
  cases w.status with
  | none => exact walkInv_refl host st
  | some s => exact ⟨⟨_, rfl⟩, fun k hk => Or.inr hk, fun x hx => hx⟩

theorem walkInv_eraseOrphaned (host : String) (m : FullName) (st : BuildState) :
    walkInv host st (eraseOrphaned m st) := by
  refine ⟨⟨[], by simp [eraseOrphaned]⟩, fun k hk => Or.inr hk, ?_⟩
  intro x hx
  exact List.mem_of_mem_filter hx

theorem walkInv_updateSVHost (host h2 : String) (f : SVHost → SVHost) (st : BuildState) :
    walkInv host st (updateSVHost h2 f st) := by
  unfold updateSVHost
  cases alistGet h2 st.securevirtualhosts with
  | none => exact ⟨⟨[], by simp⟩, fun k hk => Or.inr hk, fun x hx => hx⟩
  | some sv => exact ⟨⟨[], by simp⟩, fun k hk => Or.inr hk, fun x hx => hx⟩

theorem walkInv_addSVHRoute (host h2 : String) (r : DagRoute) (st : BuildState) :
    walkInv host st (addSVHRoute h2 r st) := walkInv_updateSVHost host h2 _ st

theorem walkInv_addVHRoute (host : String) (r : DagRoute) (st : BuildState) :
    walkInv host st (addVHRoute host r st) := by
  unfold addVHRoute
  cases alistGet host st.virtualhosts with
  | none =>
    refine ⟨⟨[], by simp⟩, ?_, fun x hx => hx⟩
    intro k hk
    simp only [List.map_append] at hk
    rcases List.mem_append.mp hk with hk | hk
    · exact Or.inr hk
    · simp at hk
      exact Or.inl hk
  | some rs =>
    refine ⟨⟨[], by simp⟩, ?_, fun x hx => hx⟩
    intro k hk
    simp only [List.map_map] at hk
    rcases List.mem_map.mp hk with ⟨p, hp, hpk⟩
    by_cases hph : p.1 = host
    · simp [Function.comp, hph] at hpk
      exact Or.inl hpk.symm
    · simp [Function.comp, hph] at hpk
      exact Or.inr (hpk ▸ List.mem_map_of_mem Prod.fst hp)

theorem walkInv_processRouteList (env : BuilderEnv)
    (rec : ObjWriter → IngressRoute → String → BuildState → Option (ObjWriter × BuildState))
    (ns0 pfxMatch : String) (visited2 : List FullName) (host : String) (enforceTLS : Bool)
    (hrec : ∀ sw d m st sw' st', rec sw d m st = some (sw', st') → walkInv host st st') :
    ∀ routes sw st sw' st' ret,
      processRouteList env rec ns0 pfxMatch visited2 host enforceTLS routes sw st =
        some (sw', st', ret) → walkInv host st st' := by
  intro routes
  induction routes with
  | nil =>
    intro sw st sw' st' ret h
    simp only [processRouteList, Option.some.injEq, Prod.mk.injEq] at h
    obtain ⟨-, rfl, -⟩ := h
    exact walkInv_refl host st
  | cons route rest ih =>
    intro sw st sw' st' ret h
    simp only [processRouteList] at h
    split at h
    · simp only [Option.some.injEq, Prod.mk.injEq] at h
      obtain ⟨-, rfl, -⟩ := h
      exact walkInv_refl host st
    · split at h
      · split at h
        · simp only [Option.some.injEq, Prod.mk.injEq] at h
          obtain ⟨-, rfl, -⟩ := h
          exact walkInv_refl host st
        · refine walkInv_trans ?_ (ih _ _ _ _ _ h)
          split
          · exact walkInv_trans (walkInv_addVHRoute host _ st)
              (walkInv_addSVHRoute host host _ _)
          · exact walkInv_addVHRoute host _ st
      · split at h
        · exact ih _ _ _ _ _ h
        · split at h
          · exact ih _ _ _ _ _ h
          · split at h
            · simp only [Option.some.injEq, Prod.mk.injEq] at h
              obtain ⟨-, rfl, -⟩ := h
              exact walkInv_eraseOrphaned host _ st
            · split at h
              · exact absurd h (by simp)
              · rename_i swd std hr
                rename_i dest heq2 hnm x0
                refine walkInv_trans (walkInv_eraseOrphaned host (fullName dest) st) ?_
                refine walkInv_trans (hrec _ _ _ _ _ _ hr) ?_
                exact walkInv_trans (walkInv_commitW host swd std) (ih _ _ _ _ _ h)

theorem walkInv_processIngressRoutes (env : BuilderEnv) :
    ∀ (fuel : Nat) (sw : ObjWriter) (ir : IngressRoute) (pfxMatch : String)
      (visited : List FullName) (host : String) (enforceTLS : Bool) (st : BuildState)
      (sw' : ObjWriter) (st' : BuildState),
      processIngressRoutes env fuel sw ir pfxMatch visited host enforceTLS st =
        some (sw', st') → walkInv host st st' := by
  intro fuel
  induction fuel with
  | zero => intro sw ir pfx vis host etls st sw' st' h; exact absurd h (by simp [processIngressRoutes])
  | succ fuel ih =>
    intro sw ir pfx vis host etls st sw' st' h
    simp only [processIngressRoutes] at h
    split at h
    · exact absurd h (by simp)
    · rename_i sw2 st2 hpl
      simp only [Option.some.injEq, Prod.mk.injEq] at h
      obtain ⟨-, rfl⟩ := h
      exact walkInv_processRouteList env _ _ _ _ _ _
        (fun swa d m sta swb stb hb => ih swa d m _ host etls sta swb stb hb)
        ir.routes sw st _ _ _ hpl
    · rename_i sw2 st2 hpl
      simp only [Option.some.injEq, Prod.mk.injEq] at h
      obtain ⟨-, rfl⟩ := h
      exact walkInv_processRouteList env _ _ _ _ _ _
        (fun swa d m sta swb stb hb => ih swa d m _ host etls sta swb stb hb)
        ir.routes sw st _ _ _ hpl

theorem walkInv_processIngressRouteTCPProxy (env : BuilderEnv) :
    ∀ (fuel : Nat) (sw : ObjWriter) (ir : IngressRoute) (visited : List FullName)
      (host : String) (st : BuildState) (sw' : ObjWriter) (st' : BuildState),
      processIngressRouteTCPProxy env fuel sw ir visited host st = some (sw', st') →
      walkInv host st st' := by
  intro fuel
  induction fuel with
  | zero =>
    intro sw ir vis host st sw' st' h
    exact absurd h (by simp [processIngressRouteTCPProxy])
  | succ fuel ih =>
    intro sw ir vis host st sw' st' h
    simp only [processIngressRouteTCPProxy] at h
    split at h
    · simp only [Option.some.injEq, Prod.mk.injEq] at h
      obtain ⟨-, rfl⟩ := h
      exact walkInv_refl host st
    · split at h
      · simp only [Option.some.injEq, Prod.mk.injEq] at h
        obtain ⟨-, rfl⟩ := h
        exact walkInv_refl host st
      · split at h
        · split at h
          · simp only [Option.some.injEq, Prod.mk.injEq] at h
            obtain ⟨-, rfl⟩ := h
            exact walkInv_refl host st
          · simp only [Option.some.injEq, Prod.mk.injEq] at h
            obtain ⟨-, rfl⟩ := h
            exact walkInv_updateSVHost host host _ st
        · split at h
          · simp only [Option.some.injEq, Prod.mk.injEq] at h
            obtain ⟨-, rfl⟩ := h
            exact walkInv_refl host st
          · split at h
            · simp only [Option.some.injEq, Prod.mk.injEq] at h
              obtain ⟨-, rfl⟩ := h
              exact walkInv_refl host st
            · split at h
              · simp only [Option.some.injEq, Prod.mk.injEq] at h
                obtain ⟨-, rfl⟩ := h
                rename_i dest heq2 hmem
                exact walkInv_eraseOrphaned host (fullName dest) st
              · split at h
                · exact absurd h (by simp)
                · rename_i swd std hr
                  rename_i dest heq2 hnm x0
                  simp only [Option.some.injEq, Prod.mk.injEq] at h
                  obtain ⟨-, rfl⟩ := h
                  refine walkInv_trans (walkInv_eraseOrphaned host (fullName dest) st) ?_
                  refine walkInv_trans (ih _ _ _ host _ _ _ hr) ?_
                  exact walkInv_commitW host swd std

/-! ### Termination: the pipeline's fuel is sufficient -/

theorem irLookup_some {env : BuilderEnv} {m : FullName} {dest : IngressRoute}
    (h : irLookup env m = some dest) :
    dest ∈ env.ingressroutes ∧ fullName dest = m := by
  unfold irLookup at h
  refine ⟨List.mem_of_find?_eq_some h, ?_⟩
  have := List.find?_some h
  simpa using this

theorem nodup_subset_length_lt {v k : List FullName} (hv : v.Nodup) (hk : k.Nodup)
    (hsub : v ⊆ k) {x : FullName} (hx : x ∈ k) (hxv : x ∉ v) : v.length < k.length := by
  have h1 : v.toFinset.card = v.length := List.toFinset_card_of_nodup hv
  have h2 : k.toFinset.card = k.length := List.toFinset_card_of_nodup hk
  have hss : v.toFinset ⊂ k.toFinset := by
    constructor
    · intro a ha
      rw [List.mem_toFinset] at ha ⊢
      exact hsub ha
    · intro hback
      have : x ∈ v.toFinset := hback (by rwa [List.mem_toFinset])
      rw [List.mem_toFinset] at this
      exact hxv this
  have := Finset.card_lt_card hss
  omega

theorem processRouteList_isSome (env : BuilderEnv)
    (rec : ObjWriter → IngressRoute → String → BuildState → Option (ObjWriter × BuildState))
    (ns0 pfxMatch : String) (visited2 : List FullName) (host : String) (enforceTLS : Bool)
    (hrec : ∀ sw d m st, fullName d ∈ irKeys env → fullName d ∉ visited2 →
      (rec sw d m st).isSome) :
    ∀ routes sw st,
      (processRouteList env rec ns0 pfxMatch visited2 host enforceTLS routes sw st).isSome := by
  intro routes
  induction routes with
  | nil => intro sw st; simp [processRouteList]
  | cons route rest ih =>
    intro sw st
    simp only [processRouteList]
    split
    · simp
    · split
      · split
        · simp
        · exact ih sw _
      · split
        · exact ih sw st
        · split
          · exact ih sw st
          · split
            · simp
            · rename_i dest heq2 hnm
              have hdk : fullName dest ∈ irKeys env := by
                obtain ⟨hmem, -⟩ := irLookup_some heq2
                exact List.mem_map_of_mem fullName hmem
              have := hrec (newWriter (fullName dest)) dest route.matchPath
                (eraseOrphaned (fullName dest) st) hdk hnm
              match hr : rec (newWriter (fullName dest)) dest route.matchPath
                  (eraseOrphaned (fullName dest) st) with
              | none => rw [hr] at this; simp at this
              | some p =>
                obtain ⟨swd, std⟩ := p
                exact ih sw (commitW swd std)

theorem processIngressRoutes_isSome (env : BuilderEnv) (hk : (irKeys env).Nodup) :
    ∀ (fuel : Nat) (sw : ObjWriter) (ir : IngressRoute) (pfxMatch : String)
      (visited : List FullName) (host : String) (enforceTLS : Bool) (st : BuildState),
      visited.Nodup → visited ⊆ irKeys env → fullName ir ∈ irKeys env →
      fullName ir ∉ visited → (irKeys env).length - visited.length ≤ fuel →
      (processIngressRoutes env fuel sw ir pfxMatch visited host enforceTLS st).isSome := by
  intro fuel
  induction fuel with
  | zero =>
    intro sw ir pfx vis host etls st hnd hsub hin hnin hlen
    have := nodup_subset_length_lt hnd hk hsub hin hnin
    omega
  | succ fuel ih =>
    intro sw ir pfx vis host etls st hnd hsub hin hnin hlen
    have hlt := nodup_subset_length_lt hnd hk hsub hin hnin
    simp only [processIngressRoutes]
    have hnd2 : (vis ++ [fullName ir]).Nodup := by
      rw [List.nodup_append]
      exact ⟨hnd, List.nodup_singleton _, by simpa using hnin⟩
    have hsub2 : (vis ++ [fullName ir]) ⊆ irKeys env := by
      intro x hx
      rcases List.mem_append.mp hx with hx | hx
      · exact hsub hx
      · simp at hx
        exact hx ▸ hin
    have hrec : ∀ sw2 d m st2, fullName d ∈ irKeys env →
        fullName d ∉ vis ++ [fullName ir] →
        (processIngressRoutes env fuel sw2 d m (vis ++ [fullName ir]) host etls st2).isSome := by
      intro sw2 d m st2 hdk hdn
      refine ih sw2 d m (vis ++ [fullName ir]) host etls st2 hnd2 hsub2 hdk hdn ?_
      have : (vis ++ [fullName ir]).length = vis.length + 1 := by simp
      omega
    have := processRouteList_isSome env _ ir.ns pfx (vis ++ [fullName ir]) host etls hrec
      ir.routes sw st
    match hres : processRouteList env
        (fun sw2 dest m st2 =>
          processIngressRoutes env fuel sw2 dest m (vis ++ [fullName ir]) host etls st2)
        ir.ns pfx (vis ++ [fullName ir]) host etls ir.routes sw st with
    | none => rw [hres] at this; simp at this
    | some (sw2, st2, ret) =>
      cases ret <;> simp

theorem processIngressRouteTCPProxy_isSome (env : BuilderEnv) (hk : (irKeys env).Nodup) :
    ∀ (fuel : Nat) (sw : ObjWriter) (ir : IngressRoute) (visited : List FullName)
      (host : String) (st : BuildState),
      visited.Nodup → visited ⊆ irKeys env → fullName ir ∈ irKeys env →
      fullName ir ∉ visited → (irKeys env).length - visited.length ≤ fuel →
      (processIngressRouteTCPProxy env fuel sw ir visited host st).isSome := by
  intro fuel
  induction fuel with
  | zero =>
    intro sw ir vis host st hnd hsub hin hnin hlen
    have := nodup_subset_length_lt hnd hk hsub hin hnin
    omega
  | succ fuel ih =>
    intro sw ir vis host st hnd hsub hin hnin hlen
    have hlt := nodup_subset_length_lt hnd hk hsub hin hnin
    simp only [processIngressRouteTCPProxy]
    split
    · simp
    · split
      · simp
      · split
        · split <;> simp
        · split
          · simp
          · split
            · simp
            · split
              · simp
              · rename_i dest heq2 hnm
                have hnd2 : (vis ++ [fullName ir]).Nodup := by
                  rw [List.nodup_append]
                  exact ⟨hnd, List.nodup_singleton _, by simpa using hnin⟩
                have hsub2 : (vis ++ [fullName ir]) ⊆ irKeys env := by
                  intro x hx
                  rcases List.mem_append.mp hx with hx | hx
                  · exact hsub hx
                  · simp at hx
                    exact hx ▸ hin
                have hdk : fullName dest ∈ irKeys env := by
                  obtain ⟨hmem, -⟩ := irLookup_some heq2
                  exact List.mem_map_of_mem fullName hmem
                have hrec := ih (newWriter (fullName dest)) dest (vis ++ [fullName ir]) host
                  (eraseOrphaned (fullName dest) st) hnd2 hsub2 hdk hnm (by simp; omega)
                match hr : processIngressRouteTCPProxy env fuel (newWriter (fullName dest))
                    dest (vis ++ [fullName ir]) host (eraseOrphaned (fullName dest) st) with
                | none => rw [hr] at hrec; simp at hrec
                | some p => simp

/-! ### The FQDN-uniqueness pass in closed form -/

theorem virStep_eq (env : BuilderEnv) (acc : List IngressRoute × BuildState) (f : String) :
    virStep env acc f =
      (acc.1 ++ virBatchV env f,
       { acc.2 with statuses := acc.2.statuses ++ virBatchS env f }) := by
  unfold virStep virBatchV virBatchS
  cases hg : fqdnGroup env f with
  | nil => simp
  | cons x t =>
    cases t with
    | nil => simp
    | cons y u => simp

theorem virStep_foldl (env : BuilderEnv) (L : List String) :
    ∀ (V : List IngressRoute) (st : BuildState),
      L.foldl (virStep env) (V, st) =
        (V ++ L.flatMap (virBatchV env),
         { st with statuses := st.statuses ++ L.flatMap (virBatchS env) }) := by
  induction L with
  | nil => intro V st; simp
  | cons f L ih =>
    intro V st
    rw [List.foldl_cons, virStep_eq]
    rw [ih]
    simp [List.append_assoc]

theorem validIngressRoutes_eq (env : BuilderEnv) (st : BuildState) :
    validIngressRoutes env st =
      (irDelegates env ++ (irFqdns env).flatMap (virBatchV env),
       { st with statuses := st.statuses ++ (irFqdns env).flatMap (virBatchS env) }) := by
  unfold validIngressRoutes
  exact virStep_foldl env (irFqdns env) (irDelegates env) st

theorem keyInj (env : BuilderEnv) (hk : (irKeys env).Nodup) :
    ∀ {a : IngressRoute}, a ∈ env.ingressroutes → ∀ {b : IngressRoute},
      b ∈ env.ingressroutes → fullName a = fullName b → a = b := by
  intro a ha b hb hab
  exact List.inj_on_of_nodup_map hk ha hb hab

theorem mem_fqdnGroup {env : BuilderEnv} {f : String} {ir : IngressRoute}
    (h : ir ∈ fqdnGroup env f) :
    ir ∈ env.ingressroutes ∧ irFqdn ir = some f := by
  unfold fqdnGroup irRoots at h
  have h1 := List.mem_of_mem_filter h
  have h2 := List.of_mem_filter h
  refine ⟨List.mem_of_mem_filter h1, by simpa using h2⟩

theorem fqdn_mem_irFqdns {env : BuilderEnv} {f : String} {ir : IngressRoute}
    (h : ir ∈ fqdnGroup env f) : f ∈ irFqdns env := by
  unfold irFqdns
  rw [List.mem_dedup]
  unfold fqdnGroup at h
  exact List.mem_filterMap.mpr ⟨ir, List.mem_of_mem_filter h, by simpa using List.of_mem_filter h⟩

/-- Keys appearing in a conflict batch belong to that FQDN's group. -/
theorem virBatchS_keys {env : BuilderEnv} {g : String} {e : FullName × StatusRec}
    (h : e ∈ virBatchS env g) :
    ∃ ir ∈ fqdnGroup env g, e.1 = fullName ir := by
  unfold virBatchS at h
  rcases hg : fqdnGroup env g with - | ⟨x, - | ⟨y, u⟩⟩
  · rw [hg] at h
    simp at h
  · rw [hg] at h
    simp at h
  · rw [hg] at h
    simp only [] at h
    rcases List.mem_map.mp h with ⟨ir, hir, rfl⟩
    exact ⟨ir, hg ▸ hir, rfl⟩

theorem listStatusOf_flatMap_hit {env : BuilderEnv} {L : List String} {f : String}
    {m : FullName} {v : StatusRec}
    (hfL : f ∈ L)
    (hother : ∀ g ∈ L, g ≠ f → ∀ e ∈ virBatchS env g, e.1 ≠ m)
    (hhit : listStatusOf (virBatchS env f) m = some v) :
    listStatusOf (L.flatMap (virBatchS env)) m = some v := by
  induction L with
  | nil => cases hfL
  | cons g L ih =>
    rw [List.flatMap_cons]
    rcases eq_or_ne g f with rfl | hgf
    · exact listStatusOf_append_some _ hhit
    · have hnone : listStatusOf (virBatchS env g) m = none :=
        listStatusOf_none_of_keys (hother g (by simp) hgf)
      rw [listStatusOf_append_none _ hnone]
      refine ih ?_ ?_
      · rcases List.mem_cons.mp hfL with rfl | hf
        · exact absurd rfl hgf
        · exact hf
      · intro g2 hg2 hg2f
        exact hother g2 (by simp [hg2]) hg2f

theorem virBatchS_big {env : BuilderEnv} {f : String}
    (hbig : 2 ≤ (fqdnGroup env f).length) :
    virBatchS env f = (fqdnGroup env f).map
      (fun ir => (fullName ir, ⟨false, conflictMsg f (fqdnGroup env f)⟩)) := by
  rcases hg : fqdnGroup env f with _ | ⟨x, _ | ⟨y, u⟩⟩
  · exact absurd hbig (by rw [hg]; simp)
  · exact absurd hbig (by rw [hg]; simp)
  · unfold virBatchS
    rw [hg]

theorem stExt_trans {s1 s2 s3 : BuildState}
    (h12 : ∃ Δ, s2.statuses = s1.statuses ++ Δ)
    (h23 : ∃ Δ, s3.statuses = s2.statuses ++ Δ) :
    ∃ Δ, s3.statuses = s1.statuses ++ Δ := by
  rcases h12 with ⟨d1, h1⟩
  rcases h23 with ⟨d2, h2⟩
  exact ⟨d1 ++ d2, by rw [h2, h1, List.append_assoc]⟩

theorem commitW_statuses (w : ObjWriter) (st : BuildState) :
    ∃ Δ, (commitW w st).statuses = st.statuses ++ Δ := (walkInv_commitW "" w st).1

theorem commitW_virtualhosts (w : ObjWriter) (st : BuildState) :
    (commitW w st).virtualhosts = st.virtualhosts := by
  unfold commitW
  cases w.status <;> rfl

theorem setOrphaned_statuses (m : FullName) (st : BuildState) :
    (setOrphaned m st).statuses = st.statuses := by
  unfold setOrphaned
  split <;> rfl

theorem setOrphaned_virtualhosts (m : FullName) (st : BuildState) :
    (setOrphaned m st).virtualhosts = st.virtualhosts := by
  unfold setOrphaned
  split <;> rfl

theorem updateSVHost_statuses (h2 : String) (f : SVHost → SVHost) (st : BuildState) :
    (updateSVHost h2 f st).statuses = st.statuses := by
  unfold updateSVHost
  cases alistGet h2 st.securevirtualhosts <;> rfl

theorem updateSVHost_virtualhosts (h2 : String) (f : SVHost → SVHost) (st : BuildState) :
    (updateSVHost h2 f st).virtualhosts = st.virtualhosts := by
  unfold updateSVHost
  cases alistGet h2 st.securevirtualhosts <;> rfl

theorem walkInv_computeIngressRouteTail (env : BuilderEnv) (fuel : Nat) (sw : ObjWriter)
    (ir : IngressRoute) (host : String) (enforceTLS passthrough : Bool) (st : BuildState) :
    walkInv host st (computeIngressRouteTail env fuel sw ir host enforceTLS passthrough st) := by
  unfold computeIngressRouteTail
  dsimp only
  generalize hq : (if ir.tcpproxy ≠ none ∧ (passthrough ∨ enforceTLS) then
      match processIngressRouteTCPProxy env fuel sw ir [] host st with
      | none => (sw, st)
      | some q => q
    else (sw, st)) = p
  have h1 : walkInv host st p.2 := by
    rw [← hq]
    split
    · match htcp : processIngressRouteTCPProxy env fuel sw ir [] host st with
      | none => exact walkInv_refl host st
      | some q =>
        exact walkInv_processIngressRouteTCPProxy env fuel sw ir [] host st q.1 q.2 htcp
    · exact walkInv_refl host st
  match hpr : processIngressRoutes env fuel p.1 ir "" [] host
      (decide (ir.tcpproxy = none) && enforceTLS) p.2 with
  | none => exact walkInv_trans h1 (walkInv_commitW host p.1 p.2)
  | some q =>
    obtain ⟨sw2, st2⟩ := q
    refine walkInv_trans h1 (walkInv_trans ?_ (walkInv_commitW host sw2 st2))
    exact walkInv_processIngressRoutes env fuel p.1 ir "" [] host _ p.2 sw2 st2 hpr

theorem computeIngressRoute_props (env : BuilderEnv) (fuel : Nat) (st : BuildState)
    (ir : IngressRoute) :
    (∃ Δ, (computeIngressRoute env fuel st ir).statuses = st.statuses ++ Δ) ∧
    (∀ k ∈ (computeIngressRoute env fuel st ir).virtualhosts.map Prod.fst,
      irFqdn ir = some k ∨ k ∈ st.virtualhosts.map Prod.fst) := by
  have tailprop : ∀ (sw : ObjWriter) (etls pass : Bool) (vh : VirtualHostSpec)
      (st1 : BuildState), ir.virtualHost = some vh →
      st1.statuses = st.statuses → st1.virtualhosts = st.virtualhosts →
      (∃ Δ, (computeIngressRouteTail env fuel sw ir vh.fqdn etls pass st1).statuses =
        st.statuses ++ Δ) ∧
      (∀ k ∈ (computeIngressRouteTail env fuel sw ir vh.fqdn etls pass st1).virtualhosts.map
          Prod.fst,
        irFqdn ir = some k ∨ k ∈ st.virtualhosts.map Prod.fst) := by
    intro sw etls pass vh st1 hvh hs hv
    obtain ⟨⟨Δ, hΔ⟩, hkeys, -⟩ :=
      walkInv_computeIngressRouteTail env fuel sw ir vh.fqdn etls pass st1
    constructor
    · exact ⟨Δ, by rw [hΔ, hs]⟩
    · intro k hk
      rcases hkeys k hk with rfl | hk2
      · exact Or.inl (by simp [irFqdn, hvh])
      · exact Or.inr (hv ▸ hk2)
  unfold computeIngressRoute
  split
  · constructor
    · rcases commitW_statuses (newWriter (fullName ir)) (setOrphaned (fullName ir) st) with ⟨Δ, hΔ⟩
      exact ⟨Δ, by rw [hΔ, setOrphaned_statuses]⟩
    · intro k hk
      rw [commitW_virtualhosts, setOrphaned_virtualhosts] at hk
      exact Or.inr hk
  · rename_i vh hvh
    split
    · constructor
      · exact commitW_statuses _ st
      · intro k hk
        rw [commitW_virtualhosts] at hk
        exact Or.inr hk
    · split
      · constructor
        · exact commitW_statuses _ st
        · intro k hk
          rw [commitW_virtualhosts] at hk
          exact Or.inr hk
      · split
        · exact tailprop _ false false vh st hvh rfl rfl
        · split
          · exact tailprop _ false true vh st hvh rfl rfl
          · dsimp only
            split
            · constructor
              · exact commitW_statuses _ st
              · intro k hk
                rw [commitW_virtualhosts] at hk
                exact Or.inr hk
            · split
              · constructor
                · exact commitW_statuses _ st
                · intro k hk
                  rw [commitW_virtualhosts] at hk
                  exact Or.inr hk
              · exact tailprop _ true false vh _ hvh (updateSVHost_statuses _ _ st)
                  (updateSVHost_virtualhosts _ _ st)

theorem foldl_computeIngressRoute_props (env : BuilderEnv) (fuel : Nat) :
    ∀ (l : List IngressRoute) (st : BuildState),
      (∃ Δ, (l.foldl (computeIngressRoute env fuel) st).statuses = st.statuses ++ Δ) ∧
      (∀ k ∈ (l.foldl (computeIngressRoute env fuel) st).virtualhosts.map Prod.fst,
        (∃ ir ∈ l, irFqdn ir = some k) ∨ k ∈ st.virtualhosts.map Prod.fst) := by
  intro l
  induction l with
  | nil => intro st; exact ⟨⟨[], by simp⟩, fun k hk => Or.inr hk⟩
  | cons ir rest ih =>
    intro st
    rw [List.foldl_cons]
    obtain ⟨hext1, hkeys1⟩ := computeIngressRoute_props env fuel st ir
    obtain ⟨hext2, hkeys2⟩ := ih (computeIngressRoute env fuel st ir)
    constructor
    · exact stExt_trans hext1 hext2
    · intro k hk
      rcases hkeys2 k hk with ⟨ir2, hir2, hk2⟩ | hk2
      · exact Or.inl ⟨ir2, by simp [hir2], hk2⟩
      · rcases hkeys1 k hk2 with h | h
        · exact Or.inl ⟨ir, by simp, h⟩
        · exact Or.inr h

theorem alistGet_eq_none {β : Type} (k : String) (l : List (String × β)) :
    alistGet k l = none ↔ ∀ p ∈ l, p.1 ≠ k := by
  simp [alistGet, List.find?_eq_none]

theorem status_validIR {env : BuilderEnv} (hk : (irKeys env).Nodup) {f : String}
    {ir : IngressRoute} (hir : ir ∈ fqdnGroup env f)
    (hbig : 2 ≤ (fqdnGroup env f).length) :
    statusOf (validIngressRoutes env initialBuildState).2 (fullName ir) =
      some ⟨false, conflictMsg f (fqdnGroup env f)⟩ := by
  rw [validIngressRoutes_eq]
  show listStatusOf (initialBuildState.statuses ++ (irFqdns env).flatMap (virBatchS env))
    (fullName ir) = _
  rw [show initialBuildState.statuses = [] from rfl, List.nil_append]
  apply listStatusOf_flatMap_hit (fqdn_mem_irFqdns hir)
  · intro g hg hgf e he hem
    obtain ⟨ir2, hir2, hkey⟩ := virBatchS_keys he
    obtain ⟨hmem2, hfq2⟩ := mem_fqdnGroup hir2
    obtain ⟨hmem1, hfq1⟩ := mem_fqdnGroup hir
    have h12 : ir2 = ir := keyInj env hk hmem2 hmem1 (by rw [← hkey, hem])
    rw [h12, hfq1] at hfq2
    injection hfq2 with hfg
    exact hgf hfg.symm
  · rw [virBatchS_big hbig]
    apply listStatusOf_of_all_eq
    · intro e he
      rcases List.mem_map.mp he with ⟨x, hx, rfl⟩
      rfl
    · exact ⟨(fullName ir, ⟨false, conflictMsg f (fqdnGroup env f)⟩),
        List.mem_map_of_mem _ hir, rfl⟩

theorem valid_mem_fqdn {env : BuilderEnv} {st : BuildState} {ir2 : IngressRoute} {g : String}
    (h : ir2 ∈ (validIngressRoutes env st).1) (hfq : irFqdn ir2 = some g) :
    fqdnGroup env g = [ir2] := by
  rw [validIngressRoutes_eq] at h
  rcases List.mem_append.mp h with h | h
  · unfold irDelegates at h
    have hn := List.of_mem_filter h
    unfold irFqdn at hfq
    cases hv : ir2.virtualHost with
    | none => rw [hv] at hfq; simp at hfq
    | some vh => rw [hv] at hn; simp at hn
  · rcases List.mem_flatMap.mp h with ⟨g2, hg2, hmem⟩
    have hgrp : fqdnGroup env g2 = [ir2] := by
      unfold virBatchV at hmem
      rcases hgg : fqdnGroup env g2 with _ | ⟨x, _ | ⟨y, u⟩⟩
      · rw [hgg] at hmem; simp at hmem
      · rw [hgg] at hmem
        simp at hmem
        rw [hmem]
      · rw [hgg] at hmem; simp at hmem
    have hin2 : ir2 ∈ fqdnGroup env g2 := by rw [hgrp]; simp
    obtain ⟨-, hfq2⟩ := mem_fqdnGroup hin2
    rw [hfq] at hfq2
    injection hfq2 with hgg2
    rw [← hgg2] at hgrp
    exact hgrp

theorem singleton_in_valid {env : BuilderEnv} {st : BuildState} {f : String}
    {ir0 : IngressRoute} (hg : fqdnGroup env f = [ir0]) :
    ir0 ∈ (validIngressRoutes env st).1 := by
  rw [validIngressRoutes_eq]
  refine List.mem_append.mpr (Or.inr ?_)
  refine List.mem_flatMap.mpr ⟨f, ?_, ?_⟩
  · exact fqdn_mem_irFqdns (show ir0 ∈ fqdnGroup env f by rw [hg]; simp)
  · unfold virBatchV
    rw [hg]
    simp

/-- C2: for every input resource set, an FQDN declared by two or more roots
marks every resource in that group Invalid with a message listing all
conflicting identifiers (the listed identifiers being sorted and complete),
and no VirtualHost is created for that FQDN; an FQDN with exactly one root
proceeds into the build. -/
theorem c2_fqdn_uniqueness (env : BuilderEnv) (f : String) (hk : (irKeys env).Nodup) :
    (2 ≤ (fqdnGroup env f).length →
      (∀ ir ∈ fqdnGroup env f,
        statusOf (computeIngressRoutes env) (fullName ir) =
          some ⟨false, conflictMsg f (fqdnGroup env f)⟩) ∧
      alistGet f (computeIngressRoutes env).virtualhosts = none) ∧
    ((fqdnGroup env f).length = 1 →
      ∀ ir ∈ fqdnGroup env f, ir ∈ (validIngressRoutes env initialBuildState).1) ∧
    (sortStrings ((fqdnGroup env f).map fun ir => ir.ns ++ "/" ++ ir.name)).Pairwise
      (fun a b => strLe a b = true) ∧
    (sortStrings ((fqdnGroup env f).map fun ir => ir.ns ++ "/" ++ ir.name)).Perm
      ((fqdnGroup env f).map fun ir => ir.ns ++ "/" ++ ir.name) := by
  refine ⟨?_, ?_, ?_, ?_⟩
  · intro hbig
    constructor
    · intro ir hir
      unfold computeIngressRoutes
      dsimp only
      obtain ⟨hext, -⟩ := foldl_computeIngressRoute_props env (env.ingressroutes.length + 1)
        (validIngressRoutes env initialBuildState).1 (validIngressRoutes env initialBuildState).2
      exact statusOf_ext hext (status_validIR hk hir hbig)
    · rw [alistGet_eq_none]
      intro p hp hpf
      have hkmem : p.1 ∈ (computeIngressRoutes env).virtualhosts.map Prod.fst :=
        List.mem_map_of_mem _ hp
      unfold computeIngressRoutes at hkmem
      dsimp only at hkmem
      obtain ⟨-, hkeys⟩ := foldl_computeIngressRoute_props env (env.ingressroutes.length + 1)
        (validIngressRoutes env initialBuildState).1 (validIngressRoutes env initialBuildState).2
      rcases hkeys p.1 hkmem with ⟨ir2, hir2, hfq⟩ | hin
      · have hsing := valid_mem_fqdn hir2 (hpf ▸ hfq)
        rw [hsing] at hbig
        simp at hbig
      · rw [validIngressRoutes_eq] at hin
        simp [initialBuildState] at hin
  · intro h1 ir hir
    rcases hg : fqdnGroup env f with _ | ⟨x, _ | ⟨y, u⟩⟩
    · rw [hg] at hir; simp at hir
    · rw [hg] at hir
      simp at hir
      rw [hir]
      exact singleton_in_valid hg
    · rw [hg] at h1; simp at h1
  · exact pairwise_sortLe strLe strLe_total strLe_trans _
  · exact sortLe_perm strLe _

/-- C2 witness: in `envC2` the FQDN `dup.com` is claimed by two roots; both
are Invalid with the sorted conflict message and no `dup.com` VirtualHost
exists. -/
theorem c2_fqdn_uniqueness_witness :
    statusOf (computeIngressRoutes envC2) ⟨"default", "r1"⟩ =
      some ⟨false,
        "fqdn \"dup.com\" is used in multiple IngressRoutes: default/r1, other/r2"⟩ ∧
    statusOf (computeIngressRoutes envC2) ⟨"other", "r2"⟩ =
      some ⟨false,
        "fqdn \"dup.com\" is used in multiple IngressRoutes: default/r1, other/r2"⟩ ∧
    alistGet "dup.com" (computeIngressRoutes envC2).virtualhosts = none ∧
    (∀ ir ∈ fqdnGroup envC2 "ok.com", ir ∈ (validIngressRoutes envC2 initialBuildState).1) := by
  have h := c2_fqdn_uniqueness envC2 "dup.com" (by decide)
  have hok := c2_fqdn_uniqueness envC2 "ok.com" (by decide)
  refine ⟨?_, ?_, (h.1 (by decide)).2, hok.2.1 (by decide)⟩
  · have h2 := (h.1 (by decide)).1
      ⟨"r1", "default", some ⟨"dup.com", none⟩, [entryTerminal "/"], none⟩ (by decide)
    exact h2.trans (by decide)
  · have h2 := (h.1 (by decide)).1
      ⟨"r2", "other", some ⟨"dup.com", none⟩, [entryTerminal "/"], none⟩ (by decide)
    exact h2.trans (by decide)

/-- C1 counterexample: in `envC1` the delegate `default/b` holds the
cycle-closing edge followed by a terminal sibling entry; the edge is Invalid
with the full path, but the sibling is NOT processed — no virtual host at all
is created, so the claim's `siblings still process` fails on this input. -/
theorem c1_counterexample :
    statusOf (computeIngressRoutes envC1) ⟨"default", "b"⟩ =
      some ⟨false, "route creates a delegation cycle: default/a -> default/b -> default/a"⟩ ∧
    (computeIngressRoutes envC1).virtualhosts = [] := by decide

/-- C1 (amended): when a resource's route entry delegates to a target already
on the visited ancestor path, that edge is marked Invalid with the full cycle
path and processing of THAT resource stops — the remaining sibling entries of
the same resource are skipped (the result is independent of them) — while
sibling branches of ancestor resources continue (closing conjuncts, on
`envC1b`, where the root's second entry still builds). -/
theorem c1_cycle_edge_stops_resource (env : BuilderEnv) (fuel : Nat) (sw : ObjWriter)
    (ir : IngressRoute) (pfxMatch : String) (visited : List FullName) (host : String)
    (enforceTLS : Bool) (st : BuildState) (entry : RouteEntry) (rest : List RouteEntry)
    (d : DelegateRef) (dest : IngressRoute)
    (hroutes : ir.routes = entry :: rest)
    (hsvc : entry.services = [])
    (hdel : entry.delegate = some d)
    (hdest : irLookup env ⟨(if d.ns = "" then ir.ns else d.ns), d.name⟩ = some dest)
    (hcyc : fullName dest ∈ visited ++ [fullName ir]) :
    processIngressRoutes env (fuel + 1) sw ir pfxMatch visited host enforceTLS st =
      some (sw.setInvalid ("route creates a delegation cycle: " ++
          cyclePath (visited ++ [fullName ir]) (fullName dest)),
        eraseOrphaned (fullName dest) st) ∧
    (alistGet "example.com" (computeIngressRoutes envC1b).virtualhosts).map List.length =
      some 1 ∧
    statusOf (computeIngressRoutes envC1b) ⟨"default", "b"⟩ =
      some ⟨false, "route creates a delegation cycle: default/a -> default/b -> default/a"⟩ := by
  refine ⟨?_, by decide, by decide⟩
  simp only [processIngressRoutes]
  rw [hroutes]
  simp only [processRouteList, hsvc, hdel, hdest]
  simp [hcyc]

/-- C1 witness: the amended theorem applied to the concrete `envC1` delegate. -/
theorem c1_cycle_edge_stops_resource_witness :
    processIngressRoutes envC1 2 (newWriter ⟨"default", "b"⟩) irB1 "/"
        [⟨"default", "a"⟩] "example.com" false initialBuildState =
      some ((newWriter ⟨"default", "b"⟩).setInvalid
          ("route creates a delegation cycle: " ++
            cyclePath ([⟨"default", "a"⟩] ++ [fullName irB1]) (fullName irA1)),
        eraseOrphaned (fullName irA1) initialBuildState) ∧
    (alistGet "example.com" (computeIngressRoutes envC1b).virtualhosts).map List.length =
      some 1 ∧
    statusOf (computeIngressRoutes envC1b) ⟨"default", "b"⟩ =
      some ⟨false, "route creates a delegation cycle: default/a -> default/b -> default/a"⟩ :=
  c1_cycle_edge_stops_resource envC1 1 (newWriter ⟨"default", "b"⟩) irB1 "/"
    [⟨"default", "a"⟩] "example.com" false initialBuildState
    (entryDelegate "/" "a") [entryTerminal "/"] ⟨"a", ""⟩ irA1
    rfl rfl rfl (by decide) (by decide)

/-- C6: the recursive walks cannot exhaust their fuel when it covers the
number of resources not yet on the visited path (so the pipeline's fuel
`|resources| + 1` always suffices and the recursion terminates on every
finite input, cyclic delegation included); on the concrete two-resource cycle
`a ↔ b` the closing edge is Invalid with a path naming both resources, and
the unrelated root `c` still builds its virtual host and is Valid. -/
theorem c6_cycle_termination :
    (∀ (env : BuilderEnv) (fuel : Nat) (sw : ObjWriter) (ir : IngressRoute)
        (pfxMatch : String) (visited : List FullName) (host : String) (enforceTLS : Bool)
        (st : BuildState),
      (irKeys env).Nodup → visited.Nodup → visited ⊆ irKeys env →
      fullName ir ∈ irKeys env → fullName ir ∉ visited →
      (irKeys env).length - visited.length ≤ fuel →
      (processIngressRoutes env fuel sw ir pfxMatch visited host enforceTLS st).isSome) ∧
    (∀ (env : BuilderEnv) (fuel : Nat) (sw : ObjWriter) (ir : IngressRoute)
        (visited : List FullName) (host : String) (st : BuildState),
      (irKeys env).Nodup → visited.Nodup → visited ⊆ irKeys env →
      fullName ir ∈ irKeys env → fullName ir ∉ visited →
      (irKeys env).length - visited.length ≤ fuel →
      (processIngressRouteTCPProxy env fuel sw ir visited host st).isSome) ∧
    statusOf (computeIngressRoutes envC6) ⟨"default", "b"⟩ =
      some ⟨false, "route creates a delegation cycle: default/a -> default/b -> default/a"⟩ ∧
    (alistGet "c.com" (computeIngressRoutes envC6).virtualhosts).map List.length = some 1 ∧
    statusOf (computeIngressRoutes envC6) ⟨"default", "c"⟩ =
      some ⟨true, "valid IngressRoute"⟩ := by
  refine ⟨?_, ?_, by decide, by decide, by decide⟩
  · intro env fuel sw ir pfx vis host etls st hk h1 h2 h3 h4 h5
    exact processIngressRoutes_isSome env hk fuel sw ir pfx vis host etls st h1 h2 h3 h4 h5
  · intro env fuel sw ir vis host st hk h1 h2 h3 h4 h5
    exact processIngressRouteTCPProxy_isSome env hk fuel sw ir vis host st h1 h2 h3 h4 h5

/-- C6 witness: both walks return a result on the cyclic input `envC6`. -/
theorem c6_cycle_termination_witness :
    (processIngressRoutes envC6 3 (newWriter ⟨"default", "a"⟩)
        ⟨"a", "default", some ⟨"a.com", none⟩, [entryDelegate "/" "b"], none⟩
        "" [] "a.com" false initialBuildState).isSome ∧
    (processIngressRouteTCPProxy envC6 3 (newWriter ⟨"default", "a"⟩)
        ⟨"a", "default", some ⟨"a.com", none⟩, [entryDelegate "/" "b"], none⟩
        [] "a.com" initialBuildState).isSome :=
  ⟨c6_cycle_termination.1 envC6 3 (newWriter ⟨"default", "a"⟩)
      ⟨"a", "default", some ⟨"a.com", none⟩, [entryDelegate "/" "b"], none⟩
      "" [] "a.com" false initialBuildState (by decide) (by decide) (by simp)
      (by decide) (by simp) (by decide),
   c6_cycle_termination.2.1 envC6 3 (newWriter ⟨"default", "a"⟩)
      ⟨"a", "default", some ⟨"a.com", none⟩, [entryDelegate "/" "b"], none⟩
      [] "a.com" initialBuildState (by decide) (by decide) (by simp)
      (by decide) (by simp) (by decide)⟩

/-! ### Idle-timeout lemmas -/

theorem nsPerHour_pos : (0 : Int) < nsPerHour := by decide

theorem applyTimeoutR_idle {route : RouteEntry} {r r2 : DagRoute}
    (h : applyTimeoutR route r = .ok r2) : r2.idleTimeout = r.idleTimeout := by
  unfold applyTimeoutR at h
  split at h
  · simp only [Except.ok.injEq] at h
    rw [← h]
  · split at h
    · simp at h
    · simp only [Except.ok.injEq] at h
      rw [← h]

theorem applyTracingR_idle {route : RouteEntry} {r r2 : DagRoute}
    (h : applyTracingR route r = .ok r2) : r2.idleTimeout = r.idleTimeout := by
  unfold applyTracingR at h
  split at h
  · simp only [Except.ok.injEq] at h
    rw [← h]
  · split at h
    · simp at h
    · split at h
      · simp at h
      · simp only [Except.ok.injEq] at h
        rw [← h]

theorem applyHeaderMatchR_idle {env : BuilderEnv} {route : RouteEntry} {r r2 : DagRoute}
    (h : applyHeaderMatchR env route r = .ok r2) : r2.idleTimeout = r.idleTimeout := by
  unfold applyHeaderMatchR at h
  split at h
  · simp only [Except.ok.injEq] at h
    rw [← h]
  · split at h
    · simp at h
    · simp only [Except.ok.injEq] at h
      rw [← h]

theorem applyIdleTimeoutR_some (route : RouteEntry) (r : DagRoute) {d : Int}
    (hd : route.idleTimeout = some d) :
    applyIdleTimeoutR route r =
      if d > nsPerHour then .ok { r with idleTimeout := some nsPerHour }
      else if d ≤ 0 then
        .error ("route " ++ quoteStr route.matchPath ++ ": idle timeout can not be disabled")
      else .ok { r with idleTimeout := some d } := by
  unfold applyIdleTimeoutR
  rw [hd]

theorem applyIdleTimeoutR_ok {route : RouteEntry} {r r2 : DagRoute} {d : Int}
    (hd : route.idleTimeout = some d) (h : applyIdleTimeoutR route r = .ok r2) :
    (d > nsPerHour → r2.idleTimeout = some nsPerHour) ∧
    (0 < d → d ≤ nsPerHour → r2.idleTimeout = some d) := by
  rw [applyIdleTimeoutR_some route r hd] at h
  by_cases hgt : d > nsPerHour
  · rw [if_pos hgt] at h
    simp only [Except.ok.injEq] at h
    rw [← h]
    exact ⟨fun _ => rfl, fun h1 h2 => absurd hgt (by omega)⟩
  · rw [if_neg hgt] at h
    by_cases hle : d ≤ 0
    · rw [if_pos hle] at h
      simp at h
    · rw [if_neg hle] at h
      simp only [Except.ok.injEq] at h
      rw [← h]
      exact ⟨fun hg => absurd hg hgt, fun _ _ => rfl⟩

theorem applyIdleTimeoutR_err {route : RouteEntry} (r : DagRoute) {d : Int}
    (hd : route.idleTimeout = some d) (hle : d ≤ 0) :
    applyIdleTimeoutR route r =
      .error ("route " ++ quoteStr route.matchPath ++ ": idle timeout can not be disabled") := by
  rw [applyIdleTimeoutR_some route r hd]
  have h1 : ¬ d > nsPerHour := by
    have := nsPerHour_pos
    omega
  rw [if_neg h1, if_pos hle]

theorem applyClusterIdleTimeout_some (m : String) (svc : ServiceRef) (c : DagCluster)
    {d : Int} (hd : svc.idleTimeout = some d) :
    applyClusterIdleTimeout m svc c =
      if d > nsPerHour then .ok { c with idleTimeout := some nsPerHour }
      else if d ≤ 0 then
        .error ("route: " ++ quoteStr m ++ " service " ++ quoteStr svc.name ++
          ": idle timeout can not be disabled")
      else .ok { c with idleTimeout := some d } := by
  unfold applyClusterIdleTimeout
  rw [hd]

theorem applyClusterIdleTimeout_ok {m : String} {svc : ServiceRef} {c c2 : DagCluster}
    {d : Int} (hd : svc.idleTimeout = some d) (h : applyClusterIdleTimeout m svc c = .ok c2) :
    (d > nsPerHour → c2.idleTimeout = some nsPerHour) ∧
    (0 < d → d ≤ nsPerHour → c2.idleTimeout = some d) := by
  rw [applyClusterIdleTimeout_some m svc c hd] at h
  by_cases hgt : d > nsPerHour
  · rw [if_pos hgt] at h
    simp only [Except.ok.injEq] at h
    rw [← h]
    exact ⟨fun _ => rfl, fun h1 h2 => absurd hgt (by omega)⟩
  · rw [if_neg hgt] at h
    by_cases hle : d ≤ 0
    · rw [if_pos hle] at h
      simp at h
    · rw [if_neg hle] at h
      simp only [Except.ok.injEq] at h
      rw [← h]
      exact ⟨fun hg => absurd hg hgt, fun _ _ => rfl⟩

theorem applyClusterIdleTimeout_err {m : String} {svc : ServiceRef} (c : DagCluster)
    {d : Int} (hd : svc.idleTimeout = some d) (hle : d ≤ 0) :
    applyClusterIdleTimeout m svc c =
      .error ("route: " ++ quoteStr m ++ " service " ++ quoteStr svc.name ++
        ": idle timeout can not be disabled") := by
  rw [applyClusterIdleTimeout_some m svc c hd]
  have h1 : ¬ d > nsPerHour := by
    have := nsPerHour_pos
    omega
  rw [if_neg h1, if_pos hle]

theorem buildRouteForEntry_idle_ok {env : BuilderEnv} {ns0 pfx : String} {etls : Bool}
    {route : RouteEntry} {r : DagRoute} {d : Int}
    (h : buildRouteForEntry env ns0 pfx etls route = .ok r)
    (hd : route.idleTimeout = some d) :
    (d > nsPerHour → r.idleTimeout = some nsPerHour) ∧
    (0 < d → d ≤ nsPerHour → r.idleTimeout = some d) := by
  unfold buildRouteForEntry at h
  simp only [bind, Except.bind, pure, Except.pure] at h
  split at h
  · exact absurd h (by simp)
  · split at h
    · exact absurd h (by simp)
    · rename_i r1 hr1
      split at h
      · exact absurd h (by simp)
      · rename_i r2 hr2
        split at h
        · exact absurd h (by simp)
        · rename_i r3 hr3
          split at h
          · exact absurd h (by simp)
          · rename_i r4 hr4
            split at h
            · exact absurd h (by simp)
            · rename_i r5 hr5
              split at h
              · exact absurd h (by simp)
              · rename_i r6 hr6
                split at h
                · exact absurd h (by simp)
                · rename_i cs hcs
                  simp only [Except.ok.injEq] at h
                  have hidle : r.idleTimeout = r6.idleTimeout := by rw [← h]
                  rw [hidle, applyHeaderMatchR_idle hr6, applyTracingR_idle hr5,
                    applyTimeoutR_idle hr4]
                  exact applyIdleTimeoutR_ok hd hr3

theorem buildRouteForEntry_idle_err {env : BuilderEnv} {ns0 pfx : String} {etls : Bool}
    {route : RouteEntry} {d : Int}
    (hm : matchesPathPfx route.matchPath pfx = true)
    (hreq : route.requestHeadersPolicy = none)
    (hresp : route.responseHeadersPolicy = none)
    (hd : route.idleTimeout = some d) (hle : d ≤ 0) :
    buildRouteForEntry env ns0 pfx etls route =
      .error ("route " ++ quoteStr route.matchPath ++ ": idle timeout can not be disabled") := by
  have h1 : ∀ r : DagRoute, applyReqHP env route r = .ok r := by
    intro r
    unfold applyReqHP
    rw [hreq]
  have h2 : ∀ r : DagRoute, applyRespHP env route r = .ok r := by
    intro r
    unfold applyRespHP
    rw [hresp]
  unfold buildRouteForEntry
  simp only [bind, Except.bind, pure, Except.pure, hm, not_true, if_false, h1, h2,
    applyIdleTimeoutR_err _ hd hle]

theorem processRouteList_invalid_on_err (env : BuilderEnv)
    (rec : ObjWriter → IngressRoute → String → BuildState → Option (ObjWriter × BuildState))
    (ns0 pfxMatch : String) (visited2 : List FullName) (host : String) (enforceTLS : Bool)
    {entry : RouteEntry} (rest : List RouteEntry) (sw : ObjWriter) (st : BuildState)
    {e : String}
    (hsvc : entry.services ≠ []) (hdel : entry.delegate = none)
    (herr : buildRouteForEntry env ns0 pfxMatch enforceTLS entry = .error e) :
    processRouteList env rec ns0 pfxMatch visited2 host enforceTLS (entry :: rest) sw st =
      some (sw.setInvalid e, st, true) := by
  simp only [processRouteList]
  rw [if_neg (by simp [hdel]), if_pos hsvc, herr]

theorem buildClusters_idle (env : BuilderEnv) (ns0 m : String) :
    ∀ (services : List ServiceRef) (cs : List DagCluster),
      buildClusters env ns0 m services = .ok cs →
      ∀ (i : Nat) (svc : ServiceRef) (c : DagCluster),
        services[i]? = some svc → cs[i]? = some c →
        ∀ d : Int, svc.idleTimeout = some d →
          ((d > nsPerHour → c.idleTimeout = some nsPerHour) ∧
           (0 < d → d ≤ nsPerHour → c.idleTimeout = some d)) := by
  intro services
  induction services with
  | nil =>
    intro cs h i svc c hsvc
    simp at hsvc
  | cons s rest ih =>
    intro cs h i svc c hsvc hc d hd
    unfold buildClusters at h
    simp only [bind, Except.bind, pure, Except.pure] at h
    split at h
    · exact absurd h (by simp)
    · split at h
      · exact absurd h (by simp)
      · split at h
        · split at h
          · exact absurd h (by simp)
          · rename_i uv huv
            split at h
            · exact absurd h (by simp)
            · rename_i c1 hc1
              split at h
              · exact absurd h (by simp)
              · rename_i cs2 hcs2
                simp only [Except.ok.injEq] at h
                rw [← h] at hc
                cases i with
                | zero =>
                  simp at hsvc hc
                  rw [← hsvc] at hd
                  rw [← hc]
                  exact applyClusterIdleTimeout_ok hd hc1
                | succ i =>
                  simp only [List.getElem?_cons_succ] at hsvc hc
                  exact ih cs2 hcs2 i svc c hsvc hc d hd
        · split at h
          · exact absurd h (by simp)
          · rename_i c1 hc1
            split at h
            · exact absurd h (by simp)
            · rename_i cs2 hcs2
              simp only [Except.ok.injEq] at h
              rw [← h] at hc
              cases i with
              | zero =>
                simp at hsvc hc
                rw [← hsvc] at hd
                rw [← hc]
                exact applyClusterIdleTimeout_ok hd hc1
              | succ i =>
                simp only [List.getElem?_cons_succ] at hsvc hc
                exact ih cs2 hcs2 i svc c hsvc hc d hd

theorem buildClusters_idle_err {env : BuilderEnv} {ns0 m : String} {svc : ServiceRef}
    (rest : List ServiceRef) {d : Int} {s : UpstreamService}
    (hport : ¬ (svc.port < 1 ∨ svc.port > 65535))
    (hlk : env.lookupService ⟨ns0, svc.name⟩ svc.port = some s)
    (hpr : ¬ s.protocol = "tls")
    (hd : svc.idleTimeout = some d) (hle : d ≤ 0) :
    buildClusters env ns0 m (svc :: rest) =
      .error ("route: " ++ quoteStr m ++ " service " ++ quoteStr svc.name ++
        ": idle timeout can not be disabled") := by
  unfold buildClusters
  simp only [bind, Except.bind, pure, Except.pure, hport, hlk, hpr, if_false,
    applyClusterIdleTimeout_err _ hd hle]

/-- C5: idle timeouts, at route level and per-service cluster level: a value
above one hour is clamped to exactly one hour; a non-positive value makes the
route construction fail with the `can not be disabled` message (and the
failure marks the resource's writer Invalid); a value in (0, 1h] is used
unchanged. -/
theorem c5_idle_timeout_clamping :
    (∀ (env : BuilderEnv) (ns0 pfx : String) (etls : Bool) (route : RouteEntry)
        (r : DagRoute) (d : Int),
      buildRouteForEntry env ns0 pfx etls route = .ok r → route.idleTimeout = some d →
      ((d > nsPerHour → r.idleTimeout = some nsPerHour) ∧
       (0 < d → d ≤ nsPerHour → r.idleTimeout = some d))) ∧
    (∀ (env : BuilderEnv) (ns0 pfx : String) (etls : Bool) (route : RouteEntry) (d : Int),
      matchesPathPfx route.matchPath pfx = true →
      route.requestHeadersPolicy = none → route.responseHeadersPolicy = none →
      route.idleTimeout = some d → d ≤ 0 →
      buildRouteForEntry env ns0 pfx etls route =
        .error ("route " ++ quoteStr route.matchPath ++
          ": idle timeout can not be disabled")) ∧
    (∀ (env : BuilderEnv)
        (rec : ObjWriter → IngressRoute → String → BuildState → Option (ObjWriter × BuildState))
        (ns0 pfxMatch : String) (visited2 : List FullName) (host : String)
        (enforceTLS : Bool) (entry : RouteEntry) (rest : List RouteEntry)
        (sw : ObjWriter) (st : BuildState) (e : String),
      entry.services ≠ [] → entry.delegate = none →
      buildRouteForEntry env ns0 pfxMatch enforceTLS entry = .error e →
      processRouteList env rec ns0 pfxMatch visited2 host enforceTLS (entry :: rest) sw st =
        some (sw.setInvalid e, st, true)) ∧
    (∀ (env : BuilderEnv) (ns0 m : String) (services : List ServiceRef)
        (cs : List DagCluster),
      buildClusters env ns0 m services = .ok cs →
      ∀ (i : Nat) (svc : ServiceRef) (c : DagCluster),
        services[i]? = some svc → cs[i]? = some c →
        ∀ d : Int, svc.idleTimeout = some d →
          ((d > nsPerHour → c.idleTimeout = some nsPerHour) ∧
           (0 < d → d ≤ nsPerHour → c.idleTimeout = some d))) ∧
    (∀ (env : BuilderEnv) (ns0 m : String) (svc : ServiceRef) (rest : List ServiceRef)
        (d : Int) (s : UpstreamService),
      ¬ (svc.port < 1 ∨ svc.port > 65535) →
      env.lookupService ⟨ns0, svc.name⟩ svc.port = some s →
      ¬ s.protocol = "tls" → svc.idleTimeout = some d → d ≤ 0 →
      buildClusters env ns0 m (svc :: rest) =
        .error ("route: " ++ quoteStr m ++ " service " ++ quoteStr svc.name ++
          ": idle timeout can not be disabled")) := by
  refine ⟨?_, ?_, ?_, ?_, ?_⟩
  · intro env ns0 pfx etls route r d h hd
    exact buildRouteForEntry_idle_ok h hd
  · intro env ns0 pfx etls route d hm hreq hresp hd hle
    exact buildRouteForEntry_idle_err hm hreq hresp hd hle
  · intro env rec ns0 pfx vis host etls entry rest sw st e hsvc hdel herr
    exact processRouteList_invalid_on_err env rec ns0 pfx vis host etls rest sw st hsvc hdel herr
  · intro env ns0 m services cs h i svc c hsvc hc d hd
    exact buildClusters_idle env ns0 m services cs h i svc c hsvc hc d hd
  · intro env ns0 m svc rest d s hport hlk hpr hd hle
    exact buildClusters_idle_err rest hport hlk hpr hd hle

/-- C5 witness: the two-hour request clamps to one hour at route level, the
30-minute per-service value passes through, and the zero request fails with
`idle timeout can not be disabled`, marking the writer Invalid. -/
theorem c5_idle_timeout_clamping_witness :
    routeIdle2hOut.idleTimeout = some nsPerHour ∧
    (routeIdle2hOut.clusters[0]?).map (fun c => c.idleTimeout) =
      some (some 1800000000000) ∧
    buildRouteForEntry (mkEnv []) "default" "" false entryIdle0 =
      .error "route \"/\": idle timeout can not be disabled" ∧
    processRouteList (mkEnv []) (fun _ _ _ _ => none) "default" "" [] "h" false
        (entryIdle0 :: []) (newWriter ⟨"default", "x"⟩) initialBuildState =
      some ((newWriter ⟨"default", "x"⟩).setInvalid
        "route \"/\": idle timeout can not be disabled", initialBuildState, true) ∧
    buildClusters (mkEnv []) "default" "/" [⟨"s1", 80, 0, "", none, none, some (-5)⟩] =
      .error "route: \"/\" service \"s1\": idle timeout can not be disabled" := by
  have h1 := (c5_idle_timeout_clamping.1 (mkEnv []) "default" "" false entryIdle2h
    routeIdle2hOut 7200000000000 rfl (by decide)).1 (by decide)
  have h4 := (c5_idle_timeout_clamping.2.2.2.1 (mkEnv []) "default" "/"
    [⟨"s1", 80, 0, "", none, none, some 1800000000000⟩] routeIdle2hOut.clusters rfl
    0 ⟨"s1", 80, 0, "", none, none, some 1800000000000⟩
    ⟨⟨"s1", "default", 80, ""⟩, "", 0, none, none, "", some 1800000000000⟩
    (by decide) (by decide) 1800000000000 (by decide)).2 (by decide) (by decide)
  have h2 := c5_idle_timeout_clamping.2.1 (mkEnv []) "default" "" false entryIdle0 0
    (by decide) (by decide) (by decide) (by decide) (by decide)
  have h3 := c5_idle_timeout_clamping.2.2.1 (mkEnv []) (fun _ _ _ _ => none) "default" ""
    [] "h" false entryIdle0 [] (newWriter ⟨"default", "x"⟩) initialBuildState
    "route \"/\": idle timeout can not be disabled" (by decide) (by decide) h2
  have h5 := c5_idle_timeout_clamping.2.2.2.2 (mkEnv []) "default" "/"
    ⟨"s1", 80, 0, "", none, none, some (-5)⟩ [] (-5) ⟨"s1", "default", 80, ""⟩
    (by decide) (by decide) (by decide) (by decide) (by decide)
  exact ⟨h1, by decide, h2, h3, h5⟩

/-- C3 counterexample: projecting TCP-proxy clusters with weights 2/0/3 gives
weighted clusters 2/1/3 — the zero weight is NOT preserved (and no aggregate
total field exists on the TCP proxy), contradicting the claim's `weights
2/0/3 project as exactly 2/0/3`. -/
theorem c3_counterexample :
    envoyTCPProxy cnameUpstream ENVOY_HTTPS_LISTENER tcpClusters203 =
      .tcpProxyF "ingress_https" none (some [("a", 2), ("b", 1), ("c", 3)]) ∧
    [("a", (2 : Nat)), ("b", 1), ("c", 3)] ≠ [("a", 2), ("b", 0), ("c", 3)] := by decide

/-- C3 (amended): for HTTP-route weighted-cluster lists (`weightedClusters`),
all-zero weights become 1 each with total = cluster count, and otherwise the
given weights are used unchanged with total = their sum; TCP-proxy
weighted-cluster lists instead replace each zero weight by 1 individually
(leaving nonzero weights unchanged, with no total computed), so no projected
TCP weight is ever zero. -/
theorem c3_weight_distribution :
    (∀ services : List HTTPServiceW, (∀ s ∈ services, s.weight = 0) →
      (∀ p ∈ (weightedClusters services).clusters, p.2 = 1) ∧
      (weightedClusters services).totalWeight = services.length) ∧
    (∀ services : List HTTPServiceW, (∃ s ∈ services, s.weight ≠ 0) →
      (weightedClusters services).clusters.Perm
        (services.map fun s => (s.clusterName, s.weight)) ∧
      (weightedClusters services).totalWeight = (services.map (·.weight)).sum) ∧
    (∀ (cname : DagCluster → String) (statName : String) (cs : List DagCluster),
      cs.length ≠ 1 →
      ∃ w, envoyTCPProxy cname statName cs = .tcpProxyF statName none (some w) ∧
        w.Perm (cs.map fun c => (cname c, if c.weight = 0 then 1 else c.weight)) ∧
        ∀ p ∈ w, p.2 ≠ 0) := by
  refine ⟨?_, ?_, ?_⟩
  · intro services hz
    have htot : (services.map (·.weight)).sum = 0 := by
      apply List.sum_eq_zero
      intro x hx
      rcases List.mem_map.mp hx with ⟨s, hs, rfl⟩
      exact hz s hs
    unfold weightedClusters
    simp only [htot, if_pos rfl, reduceIte]
    constructor
    · intro p hp
      rw [mem_sortLe] at hp
      rcases List.mem_map.mp hp with ⟨q, hq, rfl⟩
      rfl
    · trivial
  · intro services hnz
    have htot : (services.map (·.weight)).sum ≠ 0 := by
      intro h0
      rcases hnz with ⟨s, hs, hw⟩
      exact hw (List.sum_eq_zero_iff.mp h0 s.weight (List.mem_map_of_mem _ hs))
    unfold weightedClusters
    simp only [htot, if_neg htot, reduceIte]
    exact ⟨sortLe_perm _ _, trivial⟩
  · intro cname statName cs hlen
    rcases cs with _ | ⟨c1, _ | ⟨c2, rest⟩⟩
    · exact ⟨[], rfl, by simp [sortLe], by simp⟩
    · simp at hlen
    · refine ⟨_, rfl, sortLe_perm _ _, ?_⟩
      intro p hp
      rw [mem_sortLe] at hp
      rcases List.mem_map.mp hp with ⟨c, hc, rfl⟩
      by_cases hw : c.weight = 0
      · simp [hw]
      · simp [hw]

/-- C3 witness: three all-zero clusters project to 1/1/1 with total 3; the
2/0/3 route projects unchanged with total 5; the 2/0/3 TCP proxy projects
with no zero weight. -/
theorem c3_weight_distribution_witness :
    (∀ p ∈ (weightedClusters [⟨"a", 0⟩, ⟨"b", 0⟩, ⟨"c", 0⟩]).clusters, p.2 = 1) ∧
    (weightedClusters [⟨"a", 0⟩, ⟨"b", 0⟩, ⟨"c", 0⟩]).totalWeight = 3 ∧
    (weightedClusters [⟨"a", 2⟩, ⟨"b", 0⟩, ⟨"c", 3⟩]).clusters.Perm
      [("a", 2), ("b", 0), ("c", 3)] ∧
    (weightedClusters [⟨"a", 2⟩, ⟨"b", 0⟩, ⟨"c", 3⟩]).totalWeight = 5 ∧
    ∃ w, envoyTCPProxy cnameUpstream "ingress_https" tcpClusters203 =
        .tcpProxyF "ingress_https" none (some w) ∧ ∀ p ∈ w, p.2 ≠ 0 := by
  have hz := c3_weight_distribution.1 [⟨"a", 0⟩, ⟨"b", 0⟩, ⟨"c", 0⟩] (by decide)
  have hnz := c3_weight_distribution.2.1 [⟨"a", 2⟩, ⟨"b", 0⟩, ⟨"c", 3⟩]
    ⟨⟨"a", 2⟩, by decide, by decide⟩
  have htcp := c3_weight_distribution.2.2 cnameUpstream "ingress_https" tcpClusters203
    (by decide)
  exact ⟨hz.1, hz.2, hnz.1, hnz.2, htcp.elim fun w hw => ⟨w, hw.1, hw.2.2⟩⟩

/-! ### ListenerCache.Query -/

theorem alistGet_some_mem {β : Type} {n : String} {l : List (String × β)} {v : β}
    (h : alistGet n l = some v) : (n, v) ∈ l := by
  unfold alistGet at h
  match hf : l.find? fun p => p.1 = n with
  | none => rw [hf] at h; simp at h
  | some p =>
    rw [hf] at h
    simp at h
    have hp1 := List.find?_some hf
    simp at hp1
    have hmem := List.mem_of_find?_eq_some hf
    have : (n, v) = p := by
      rcases p with ⟨p1, p2⟩
      simp at hp1 h
      rw [hp1, h]
    rw [this]
    exact hmem

theorem filterMap_skip_none {α β : Type} [DecidableEq α] (f : α → Option β) (n : α)
    (hn : f n = none) :
    ∀ l : List α, l.filterMap f = (l.filter fun x => x ≠ n).filterMap f := by
  intro l
  induction l with
  | nil => rfl
  | cons x t ih =>
    by_cases hx : x = n
    · subst hx
      simp [List.filterMap_cons, hn, List.filter_cons, ih]
    · simp [List.filterMap_cons, List.filter_cons, hx, ih]

/-- C7: `Query` resolves each requested name from the dynamic table first and
then the static table; names in neither contribute nothing (removing them
from the request changes nothing, and every returned object comes from one of
the two tables — never synthesized); the result is sorted by the listener
name key and is a permutation of the per-name resolutions. -/
theorem c7_cache_query (c : ListenerCacheM) (names : List String) :
    (∀ v ∈ cacheQuery c names,
      (∃ n, (n, v) ∈ c.values) ∨ (∃ n, (n, v) ∈ c.staticValues)) ∧
    (∀ n, alistGet n c.values = none → alistGet n c.staticValues = none →
      cacheQuery c names = cacheQuery c (names.filter fun x => x ≠ n)) ∧
    (∀ n v, alistGet n c.values = some v → cacheResolve c n = some v) ∧
    (cacheQuery c names).Pairwise (fun a b => lobLe a b = true) ∧
    (cacheQuery c names).Perm (names.filterMap (cacheResolve c)) := by
  refine ⟨?_, ?_, ?_, ?_, sortLe_perm _ _⟩
  · intro v hv
    rw [show cacheQuery c names = sortLe lobLe (names.filterMap (cacheResolve c)) from rfl,
      mem_sortLe] at hv
    rcases List.mem_filterMap.mp hv with ⟨n, hn, hres⟩
    unfold cacheResolve at hres
    match hd : alistGet n c.values with
    | some v2 =>
      rw [hd] at hres
      simp at hres
      exact Or.inl ⟨n, hres ▸ alistGet_some_mem hd⟩
    | none =>
      rw [hd] at hres
      exact Or.inr ⟨n, alistGet_some_mem hres⟩
  · intro n h1 h2
    unfold cacheQuery
    rw [filterMap_skip_none (cacheResolve c) n (by unfold cacheResolve; rw [h1, h2]) names]
  · intro n v h
    unfold cacheResolve
    rw [h]
  · exact pairwise_sortLe lobLe (fun a b => strLe_total a.lname b.lname)
      (fun a b c2 => strLe_trans a.lname b.lname c2.lname) _

/-- C7 witness: a concrete cache where a name shadowed by the dynamic table
resolves dynamically, an unknown name is skipped, and the result is sorted. -/
theorem c7_cache_query_witness :
    (∀ v ∈ cacheQuery ⟨[("x", ⟨"x", 1⟩)], [("x", ⟨"x", 2⟩), ("y", ⟨"y", 3⟩)]⟩ ["y", "x", "z"],
      (∃ n, (n, v) ∈ [("x", ListenerObj.mk "x" 1)]) ∨
      (∃ n, (n, v) ∈ [("x", ListenerObj.mk "x" 2), ("y", ListenerObj.mk "y" 3)])) ∧
    cacheQuery ⟨[("x", ⟨"x", 1⟩)], [("x", ⟨"x", 2⟩), ("y", ⟨"y", 3⟩)]⟩ ["y", "x", "z"] =
      cacheQuery ⟨[("x", ⟨"x", 1⟩)], [("x", ⟨"x", 2⟩), ("y", ⟨"y", 3⟩)]⟩
        (["y", "x", "z"].filter fun s => s ≠ "z") ∧
    cacheResolve ⟨[("x", ⟨"x", 1⟩)], [("x", ⟨"x", 2⟩), ("y", ⟨"y", 3⟩)]⟩ "x" =
      some ⟨"x", 1⟩ ∧
    cacheQuery ⟨[("x", ⟨"x", 1⟩)], [("x", ⟨"x", 2⟩), ("y", ⟨"y", 3⟩)]⟩ ["y", "x", "z"] =
      [⟨"x", 1⟩, ⟨"y", 3⟩] := by
  have h := c7_cache_query ⟨[("x", ⟨"x", 1⟩)], [("x", ⟨"x", 2⟩), ("y", ⟨"y", 3⟩)]⟩
    ["y", "x", "z"]
  exact ⟨h.1, h.2.1 "z" (by decide) (by decide), h.2.2.1 "x" ⟨"x", 1⟩ (by decide), by decide⟩

/-! ### Filter-chain grouping -/

theorem tryGroup_merge (dtls : Option DownstreamTlsCtx) (nm : String) :
    ∀ (pre : List FilterChain) (fc : FilterChain) (post : List FilterChain),
      (∀ fc2 ∈ pre, fc2.transportSocket = none ∨ isTCPProxyFilter fc2.filters = true ∨
        dtls ≠ fc2.transportSocket) →
      fc.transportSocket ≠ none → isTCPProxyFilter fc.filters = false →
      dtls = fc.transportSocket →
      tryGroup dtls nm (pre ++ fc :: post) =
        some (pre ++ { fc with serverNames := sortStrings (fc.serverNames ++ [nm]) } :: post) := by
  intro pre
  induction pre with
  | nil =>
    intro fc post hpre hsock htcp hdtls
    simp only [List.nil_append, tryGroup]
    rw [if_neg hsock, if_neg (by simp [htcp]),
      if_pos (show dtls = GetDownstreamTLSContext fc from hdtls)]
  | cons p pre ih =>
    intro fc post hpre hsock htcp hdtls
    have hrec := ih fc post (fun x hx => hpre x (by simp [hx])) hsock htcp hdtls
    have hskip : tryGroup dtls nm (p :: (pre ++ fc :: post)) =
        (tryGroup dtls nm (pre ++ fc :: post)).map (p :: ·) := by
      simp only [tryGroup]
      by_cases hps : p.transportSocket = none
      · rw [if_pos hps]
      · rw [if_neg hps]
        by_cases hpt : isTCPProxyFilter p.filters = true
        · rw [if_pos hpt]
        · rw [if_neg hpt]
          have hne : ¬ dtls = GetDownstreamTLSContext p := by
            rcases hpre p (by simp) with h | h | h
            · exact absurd h hps
            · exact absurd h hpt
            · exact h
          rw [if_neg hne]
    rw [List.cons_append, hskip, hrec]
    rfl

theorem tryGroup_shape (dtls : Option DownstreamTlsCtx) (nm : String) :
    ∀ (chains merged : List FilterChain), tryGroup dtls nm chains = some merged →
      ∃ pre fc post, chains = pre ++ fc :: post ∧
        merged = pre ++ { fc with serverNames := sortStrings (fc.serverNames ++ [nm]) } :: post ∧
        fc.transportSocket ≠ none ∧ isTCPProxyFilter fc.filters = false ∧
        dtls = fc.transportSocket := by
  intro chains
  induction chains with
  | nil => intro merged h; simp [tryGroup] at h
  | cons fc0 rest ih =>
    intro merged h
    have hskipcase : (tryGroup dtls nm rest).map (fc0 :: ·) = some merged →
        ∃ pre fc post, fc0 :: rest = pre ++ fc :: post ∧
          merged = pre ++ { fc with serverNames := sortStrings (fc.serverNames ++ [nm]) } :: post ∧
          fc.transportSocket ≠ none ∧ isTCPProxyFilter fc.filters = false ∧
          dtls = fc.transportSocket := by
      intro hmap
      match hr : tryGroup dtls nm rest with
      | none => rw [hr] at hmap; simp at hmap
      | some m2 =>
        rw [hr] at hmap
        simp at hmap
        obtain ⟨pre, fcx, post, hc, hm, hs, ht, hd⟩ := ih m2 hr
        exact ⟨fc0 :: pre, fcx, post, by rw [hc, List.cons_append],
          by rw [← hmap, hm, List.cons_append], hs, ht, hd⟩
    simp only [tryGroup] at h
    by_cases h1 : fc0.transportSocket = none
    · rw [if_pos h1] at h
      exact hskipcase h
    · rw [if_neg h1] at h
      by_cases h2 : isTCPProxyFilter fc0.filters = true
      · rw [if_pos h2] at h
        exact hskipcase h
      · rw [if_neg h2] at h
        by_cases h3 : dtls = GetDownstreamTLSContext fc0
        · rw [if_pos h3] at h
          simp only [Option.some.injEq] at h
          exact ⟨[], fc0, rest, rfl, by rw [← h]; rfl, h1, (Bool.not_eq_true _).mp h2, h3⟩
        · rw [if_neg h3] at h
          exact hskipcase h

theorem getElem?_append_left_of_some {α : Type} {l : List α} {i : Nat} {x : α}
    (l2 : List α) (h : l[i]? = some x) : (l ++ l2)[i]? = some x := by
  have hlt : i < l.length := by
    by_contra hc
    rw [List.getElem?_eq_none (by omega)] at h
    cases h
  rw [List.getElem?_append, if_pos hlt]
  exact h

theorem getElem?_append_cons_ne {α : Type} (pre : List α) (a b : α) (post : List α)
    (i : Nat) (hne : i ≠ pre.length) :
    (pre ++ a :: post)[i]? = (pre ++ b :: post)[i]? := by
  rw [List.getElem?_append, List.getElem?_append]
  split
  · rfl
  · obtain ⟨j, hj⟩ : ∃ j, i - pre.length = j + 1 := ⟨i - pre.length - 1, by omega⟩
    rw [hj]
    simp

theorem getElem?_append_middle {α : Type} (pre : List α) (a : α) (post : List α) :
    (pre ++ a :: post)[pre.length]? = some a := by
  rw [List.getElem?_append, if_neg (by omega)]
  simp


theorem visitSecure_cases (lvc : LVCfg) (cname : DagCluster → String)
    (chains : List FilterChain) (vh : SecureVirtualHostV) :
    (∃ merged tail, vh.tcpproxy = none ∧
      tryGroup (vh.secret.map fun sec => DownstreamTLSContextAdobe sec
          (max (lvcMinProtoVersion lvc) vh.minProtoVersion)
          (maxProtoVersion vh.maxProtoVersionReq) vh.downstreamValidation ["h2", "http/1.1"])
        vh.vhName chains = some merged ∧
      visitSecureVirtualHost lvc cname chains vh = merged ++ tail) ∨
    (∃ tail, visitSecureVirtualHost lvc cname chains vh =
      (chains ++ [FilterChainTLS vh.vhName
        (vh.secret.map fun sec => DownstreamTLSContextAdobe sec
          (max (lvcMinProtoVersion lvc) vh.minProtoVersion)
          (maxProtoVersion vh.maxProtoVersionReq) vh.downstreamValidation
          (match vh.tcpproxy with | none => ["h2", "http/1.1"] | some _ => []))
        (match vh.tcpproxy with
          | none => [.httpConnMgr ENVOY_HTTPS_LISTENER ENVOY_HTTPS_LISTENER]
          | some p => [envoyTCPProxy cname ENVOY_HTTPS_LISTENER p])]) ++ tail) := by
  rcases htcp : vh.tcpproxy with _ | p
  · rcases hsec : vh.secret with _ | s
    · rcases hfb : vh.fallbackCertificate with _ | fbc
      · exact Or.inr ⟨[], by simp [visitSecureVirtualHost, htcp, hsec, hfb]⟩
      · by_cases hcf : ContainsFallbackFilterChain (chains ++ [FilterChainTLS vh.vhName none
            [.httpConnMgr ENVOY_HTTPS_LISTENER ENVOY_HTTPS_LISTENER]]) = true
        · exact Or.inr ⟨[], by simp [visitSecureVirtualHost, htcp, hsec, hfb, hcf]⟩
        · exact Or.inr ⟨[FilterChainTLSFallback
            (some (DownstreamTLSContextPlain fbc (lvcMinProtoVersion lvc)
              vh.downstreamValidation ["h2", "http/1.1"]))
            [.httpConnMgr ENVOY_FALLBACK_ROUTECONFIG ENVOY_HTTPS_LISTENER]],
            by simp [visitSecureVirtualHost, htcp, hsec, hfb, hcf]⟩
    · rcases hg : tryGroup (some (DownstreamTLSContextAdobe s
          (max (lvcMinProtoVersion lvc) vh.minProtoVersion)
          (maxProtoVersion vh.maxProtoVersionReq) vh.downstreamValidation ["h2", "http/1.1"]))
          vh.vhName chains with _ | merged
      · rcases hfb : vh.fallbackCertificate with _ | fbc
        · exact Or.inr ⟨[], by simp [visitSecureVirtualHost, htcp, hsec, hfb, hg]⟩
        · by_cases hcf : ContainsFallbackFilterChain (chains ++ [FilterChainTLS vh.vhName
              (some (DownstreamTLSContextAdobe s
                (max (lvcMinProtoVersion lvc) vh.minProtoVersion)
                (maxProtoVersion vh.maxProtoVersionReq) vh.downstreamValidation
                ["h2", "http/1.1"]))
              [.httpConnMgr ENVOY_HTTPS_LISTENER ENVOY_HTTPS_LISTENER]]) = true
          · exact Or.inr ⟨[], by simp [visitSecureVirtualHost, htcp, hsec, hfb, hg, hcf]⟩
          · exact Or.inr ⟨[FilterChainTLSFallback
              (some (DownstreamTLSContextPlain fbc (lvcMinProtoVersion lvc)
                vh.downstreamValidation ["h2", "http/1.1"]))
              [.httpConnMgr ENVOY_FALLBACK_ROUTECONFIG ENVOY_HTTPS_LISTENER]],
              by simp [visitSecureVirtualHost, htcp, hsec, hfb, hg, hcf]⟩
      · rcases hfb : vh.fallbackCertificate with _ | fbc
        · exact Or.inl ⟨merged, [], rfl, hg,
            by simp [visitSecureVirtualHost, htcp, hsec, hfb, hg]⟩
        · by_cases hcf : ContainsFallbackFilterChain merged = true
          · exact Or.inl ⟨merged, [], rfl, hg,
              by simp [visitSecureVirtualHost, htcp, hsec, hfb, hg, hcf]⟩
          · exact Or.inl ⟨merged, [FilterChainTLSFallback
              (some (DownstreamTLSContextPlain fbc (lvcMinProtoVersion lvc)
                vh.downstreamValidation ["h2", "http/1.1"]))
              [.httpConnMgr ENVOY_FALLBACK_ROUTECONFIG ENVOY_HTTPS_LISTENER]],
              rfl, hg,
              by simp [visitSecureVirtualHost, htcp, hsec, hfb, hg, hcf]⟩
  · rcases hfb : vh.fallbackCertificate with _ | fbc
    · exact Or.inr ⟨[], by simp [visitSecureVirtualHost, htcp, hfb]⟩
    · by_cases hcf : ContainsFallbackFilterChain (chains ++ [FilterChainTLS vh.vhName
          (vh.secret.map fun sec => DownstreamTLSContextAdobe sec
            (max (lvcMinProtoVersion lvc) vh.minProtoVersion)
            (maxProtoVersion vh.maxProtoVersionReq) vh.downstreamValidation [])
          [envoyTCPProxy cname ENVOY_HTTPS_LISTENER p]]) = true
      · exact Or.inr ⟨[], by simp [visitSecureVirtualHost, htcp, hfb, hcf]⟩
      · exact Or.inr ⟨[FilterChainTLSFallback
          (some (DownstreamTLSContextPlain fbc (lvcMinProtoVersion lvc)
            vh.downstreamValidation []))
          [.httpConnMgr ENVOY_FALLBACK_ROUTECONFIG ENVOY_HTTPS_LISTENER]],
          by simp [visitSecureVirtualHost, htcp, hfb, hcf]⟩

/-- **C4**: before appending a new filter chain the existing chains are
scanned; a chain carrying the structurally equal TLS context (server names
excluded — they are a separate field) that is not a raw-TCP proxy chain
absorbs the new host's name, re-sorted, instead of a new chain being added;
chains carrying a `tcp_proxy` filter keep their position untouched and are
never merged into; a host that is itself a TCP proxy always appends a fresh
chain. -/
theorem c4_filter_chain_grouping :
    (∀ (lvc : LVCfg) (cname : DagCluster → String) (pre post : List FilterChain)
        (fc : FilterChain) (vh : SecureVirtualHostV) (s : String),
      vh.tcpproxy = none → vh.secret = some s → vh.fallbackCertificate = none →
      (∀ fc2 ∈ pre, fc2.transportSocket = none ∨ isTCPProxyFilter fc2.filters = true ∨
        some (DownstreamTLSContextAdobe s (max (lvcMinProtoVersion lvc) vh.minProtoVersion)
          (maxProtoVersion vh.maxProtoVersionReq) vh.downstreamValidation ["h2", "http/1.1"])
          ≠ fc2.transportSocket) →
      fc.transportSocket = some (DownstreamTLSContextAdobe s
        (max (lvcMinProtoVersion lvc) vh.minProtoVersion)
        (maxProtoVersion vh.maxProtoVersionReq) vh.downstreamValidation ["h2", "http/1.1"]) →
      isTCPProxyFilter fc.filters = false →
      visitSecureVirtualHost lvc cname (pre ++ fc :: post) vh =
        pre ++ { fc with serverNames := sortStrings (fc.serverNames ++ [vh.vhName]) } :: post) ∧
    (∀ (lvc : LVCfg) (cname : DagCluster → String) (chains : List FilterChain)
        (vh : SecureVirtualHostV) (i : Nat) (fcx : FilterChain),
      chains[i]? = some fcx → isTCPProxyFilter fcx.filters = true →
      (visitSecureVirtualHost lvc cname chains vh)[i]? = some fcx) ∧
    (∀ (lvc : LVCfg) (cname : DagCluster → String) (chains : List FilterChain)
        (vh : SecureVirtualHostV) (p : List DagCluster),
      vh.tcpproxy = some p → vh.fallbackCertificate = none →
      visitSecureVirtualHost lvc cname chains vh =
        chains ++ [FilterChainTLS vh.vhName
          (vh.secret.map fun sec => DownstreamTLSContextAdobe sec
            (max (lvcMinProtoVersion lvc) vh.minProtoVersion)
            (maxProtoVersion vh.maxProtoVersionReq) vh.downstreamValidation [])
          [envoyTCPProxy cname ENVOY_HTTPS_LISTENER p]]) := by
  refine ⟨?_, ?_, ?_⟩
  · intro lvc cname pre post fc vh s htcp hsec hfb hpre hfcsock hnottcp
    have hg := tryGroup_merge (some (DownstreamTLSContextAdobe s
        (max (lvcMinProtoVersion lvc) vh.minProtoVersion)
        (maxProtoVersion vh.maxProtoVersionReq) vh.downstreamValidation ["h2", "http/1.1"]))
      vh.vhName pre fc post hpre (by rw [hfcsock]; simp) hnottcp hfcsock.symm
    simp [visitSecureVirtualHost, htcp, hsec, hfb, hg]
  · intro lvc cname chains vh i fcx hix htcpx
    rcases visitSecure_cases lvc cname chains vh with
      ⟨merged, tail, htcp, hg, heq⟩ | ⟨tail, heq⟩
    · obtain ⟨pre, fc, post, hch, hm, hsock, hfcnottcp, hdtls⟩ :=
        tryGroup_shape _ vh.vhName chains merged hg
      subst hch hm
      rw [heq]
      by_cases hi : i = pre.length
      · subst hi
        rw [getElem?_append_middle] at hix
        injection hix with h
        subst h
        rw [hfcnottcp] at htcpx
        cases htcpx
      · have hsw : (pre ++ fc :: post)[i]? =
            (pre ++ { fc with serverNames := sortStrings (fc.serverNames ++ [vh.vhName]) } :: post)[i]? :=
          getElem?_append_cons_ne pre fc _ post i hi
        rw [hsw] at hix
        exact getElem?_append_left_of_some tail hix
    · rw [heq]
      exact getElem?_append_left_of_some tail (getElem?_append_left_of_some _ hix)
  · intro lvc cname chains vh p htcp hfb
    simp [visitSecureVirtualHost, htcp, hfb]

/-- Witness for C4: on a listener holding a raw-TCP chain and `vhA`'s chain,
visiting `vhB` merges into `vhA`'s chain with sorted server names and leaves
the raw-TCP chain in place; visiting the TCP-proxying host appends a fresh
chain. -/
theorem c4_filter_chain_grouping_witness :
    visitSecureVirtualHost lvc0 cnameUpstream [fcRawTCP, fcA] vhB =
      [fcRawTCP, { fcA with serverNames := ["a.example.com", "b.example.com"] }] ∧
    (visitSecureVirtualHost lvc0 cnameUpstream [fcRawTCP, fcA] vhB)[0]? = some fcRawTCP ∧
    visitSecureVirtualHost lvc0 cnameUpstream [fcRawTCP, fcA] vhTCP =
      [fcRawTCP, fcA, FilterChainTLS "tcp.example.com"
        (some (DownstreamTLSContextAdobe "default/tls" TLSv1_1 TLSv1_3 none []))
        [envoyTCPProxy cnameUpstream ENVOY_HTTPS_LISTENER [tcpCluster "a" 2]]] := by
  obtain ⟨ha, hb, hc⟩ := c4_filter_chain_grouping
  refine ⟨?_, ?_, ?_⟩
  · rw [show ([fcRawTCP, fcA] : List FilterChain) = [fcRawTCP] ++ fcA :: [] by rfl,
      ha lvc0 cnameUpstream [fcRawTCP] [] fcA vhB "default/tls"
        (by decide) (by decide) (by decide) (by decide) (by decide) (by decide)]
    decide
  · exact hb lvc0 cnameUpstream [fcRawTCP, fcA] vhB 0 fcRawTCP (by decide) (by decide)
  · rw [hc lvc0 cnameUpstream [fcRawTCP, fcA] vhTCP [tcpCluster "a" 2]
      (by decide) (by decide)]
    decide

/-- **C8**: every secure virtual host with a resolved secret projects a TLS
context onto some filter chain that lists its host name, whose minimum
protocol version is the max of the configured floor and the per-host
request, and whose maximum version is the per-host value — or TLS 1.3 when
the per-host value is unset (`TLS_AUTO`). -/
theorem c8_tls_version_resolution
    (lvc : LVCfg) (cname : DagCluster → String) (chains : List FilterChain)
    (vh : SecureVirtualHostV) (s : String) (hsec : vh.secret = some s) :
    ∃ fc ∈ visitSecureVirtualHost lvc cname chains vh,
      vh.vhName ∈ fc.serverNames ∧
      ∃ ctx, fc.transportSocket = some ctx ∧
        ctx.secret = s ∧
        ctx.minVer = max (lvcMinProtoVersion lvc) vh.minProtoVersion ∧
        ctx.maxVer = maxProtoVersion vh.maxProtoVersionReq ∧
        (vh.maxProtoVersionReq = TLS_AUTO → ctx.maxVer = TLSv1_3) ∧
        (vh.maxProtoVersionReq ≠ TLS_AUTO → ctx.maxVer = vh.maxProtoVersionReq) := by
  rcases visitSecure_cases lvc cname chains vh with
    ⟨merged, tail, htcp, hg, heq⟩ | ⟨tail, heq⟩
  · obtain ⟨pre, fc, post, hch, hm, hsock, hfcnottcp, hdtls⟩ :=
      tryGroup_shape _ vh.vhName chains merged hg
    rw [hsec] at hdtls
    refine ⟨{ fc with serverNames := sortStrings (fc.serverNames ++ [vh.vhName]) },
      ?_, ?_, ?_⟩
    · rw [heq, hm]
      simp
    · show vh.vhName ∈ sortStrings (fc.serverNames ++ [vh.vhName])
      rw [sortStrings, mem_sortLe]
      simp
    · refine ⟨DownstreamTLSContextAdobe s (max (lvcMinProtoVersion lvc) vh.minProtoVersion)
        (maxProtoVersion vh.maxProtoVersionReq) vh.downstreamValidation ["h2", "http/1.1"],
        hdtls.symm, rfl, rfl, rfl, ?_, ?_⟩
      · intro h0
        show maxProtoVersion vh.maxProtoVersionReq = TLSv1_3
        rw [maxProtoVersion, if_pos h0]
      · intro h0
        show maxProtoVersion vh.maxProtoVersionReq = vh.maxProtoVersionReq
        rw [maxProtoVersion, if_neg h0]
  · refine ⟨FilterChainTLS vh.vhName
      (vh.secret.map fun sec => DownstreamTLSContextAdobe sec
        (max (lvcMinProtoVersion lvc) vh.minProtoVersion)
        (maxProtoVersion vh.maxProtoVersionReq) vh.downstreamValidation
        (match vh.tcpproxy with | none => ["h2", "http/1.1"] | some _ => []))
      (match vh.tcpproxy with
        | none => [.httpConnMgr ENVOY_HTTPS_LISTENER ENVOY_HTTPS_LISTENER]
        | some p => [envoyTCPProxy cname ENVOY_HTTPS_LISTENER p]), ?_, ?_, ?_⟩
    · rw [heq]
      simp
    · show vh.vhName ∈ [vh.vhName]
      simp
    · refine ⟨DownstreamTLSContextAdobe s (max (lvcMinProtoVersion lvc) vh.minProtoVersion)
        (maxProtoVersion vh.maxProtoVersionReq) vh.downstreamValidation
        (match vh.tcpproxy with | none => ["h2", "http/1.1"] | some _ => []),
        by rw [show (FilterChainTLS vh.vhName (vh.secret.map fun sec =>
              DownstreamTLSContextAdobe sec
                (max (lvcMinProtoVersion lvc) vh.minProtoVersion)
                (maxProtoVersion vh.maxProtoVersionReq) vh.downstreamValidation
                (match vh.tcpproxy with | none => ["h2", "http/1.1"] | some _ => []))
              (match vh.tcpproxy with
                | none => [.httpConnMgr ENVOY_HTTPS_LISTENER ENVOY_HTTPS_LISTENER]
                | some p => [envoyTCPProxy cname ENVOY_HTTPS_LISTENER p])).transportSocket
            = vh.secret.map fun sec => DownstreamTLSContextAdobe sec
                (max (lvcMinProtoVersion lvc) vh.minProtoVersion)
                (maxProtoVersion vh.maxProtoVersionReq) vh.downstreamValidation
                (match vh.tcpproxy with | none => ["h2", "http/1.1"] | some _ => [])
            from rfl, hsec]; rfl,
        rfl, rfl, rfl, ?_, ?_⟩
      · intro h0
        show maxProtoVersion vh.maxProtoVersionReq = TLSv1_3
        rw [maxProtoVersion, if_pos h0]
      · intro h0
        show maxProtoVersion vh.maxProtoVersionReq = vh.maxProtoVersionReq
        rw [maxProtoVersion, if_neg h0]

/-- Witness for C8: visiting `vhMax12` (floor TLS 1.1, request max TLS 1.2)
and `vhB` (max unset) on an empty listener, the projected contexts resolve to
min TLS 1.1 with max TLS 1.2 and TLS 1.3 respectively. -/
theorem c8_tls_version_resolution_witness :
    (∃ fc ∈ visitSecureVirtualHost lvc0 cnameUpstream [] vhMax12,
      vhMax12.vhName ∈ fc.serverNames ∧
      ∃ ctx, fc.transportSocket = some ctx ∧
        ctx.secret = "default/tls" ∧
        ctx.minVer = max (lvcMinProtoVersion lvc0) vhMax12.minProtoVersion ∧
        ctx.maxVer = maxProtoVersion vhMax12.maxProtoVersionReq ∧
        (vhMax12.maxProtoVersionReq = TLS_AUTO → ctx.maxVer = TLSv1_3) ∧
        (vhMax12.maxProtoVersionReq ≠ TLS_AUTO → ctx.maxVer = vhMax12.maxProtoVersionReq)) ∧
    (∃ fc ∈ visitSecureVirtualHost lvc0 cnameUpstream [] vhB,
      vhB.vhName ∈ fc.serverNames ∧
      ∃ ctx, fc.transportSocket = some ctx ∧
        ctx.secret = "default/tls" ∧
        ctx.minVer = max (lvcMinProtoVersion lvc0) vhB.minProtoVersion ∧
        ctx.maxVer = maxProtoVersion vhB.maxProtoVersionReq ∧
        (vhB.maxProtoVersionReq = TLS_AUTO → ctx.maxVer = TLSv1_3) ∧
        (vhB.maxProtoVersionReq ≠ TLS_AUTO → ctx.maxVer = vhB.maxProtoVersionReq)) ∧
    maxProtoVersion vhMax12.maxProtoVersionReq = TLSv1_2 ∧
    maxProtoVersion vhB.maxProtoVersionReq = TLSv1_3 :=
  ⟨c8_tls_version_resolution lvc0 cnameUpstream [] vhMax12 "default/tls" (by decide),
   c8_tls_version_resolution lvc0 cnameUpstream [] vhB "default/tls" (by decide),
   by decide, by decide⟩

theorem fullName_eraseVH (ir : IngressRoute) : fullName (eraseVH ir) = fullName ir := rfl

theorem applyReqHP_eraseVH (env : BuilderEnv) :
    applyReqHP (envEraseVH env) = applyReqHP env := rfl

theorem applyRespHP_eraseVH (env : BuilderEnv) :
    applyRespHP (envEraseVH env) = applyRespHP env := rfl

theorem applyHeaderMatchR_eraseVH (env : BuilderEnv) :
    applyHeaderMatchR (envEraseVH env) = applyHeaderMatchR env := rfl

theorem buildClusters_eraseVH (env : BuilderEnv) (ns0 m : String) :
    ∀ svcs, buildClusters (envEraseVH env) ns0 m svcs = buildClusters env ns0 m svcs := by
  intro svcs
  induction svcs with
  | nil => rfl
  | cons s rest ih =>
    simp only [buildClusters, ih]
    rfl

theorem buildRouteForEntry_eraseVH (env : BuilderEnv) (ns0 pfx : String) (etls : Bool)
    (route : RouteEntry) :
    buildRouteForEntry (envEraseVH env) ns0 pfx etls route =
      buildRouteForEntry env ns0 pfx etls route := by
  unfold buildRouteForEntry
  rw [buildClusters_eraseVH, applyReqHP_eraseVH, applyRespHP_eraseVH,
    applyHeaderMatchR_eraseVH, show (envEraseVH env).disablePermitInsecure =
      env.disablePermitInsecure from rfl]

theorem irLookup_eraseVH (env : BuilderEnv) (m : FullName) :
    irLookup (envEraseVH env) m = (irLookup env m).map eraseVH := by
  have key : ∀ l : List IngressRoute,
      (l.map eraseVH).find? (fun ir => fullName ir = m) =
        (l.find? fun ir => fullName ir = m).map eraseVH := by
    intro l
    induction l with
    | nil => rfl
    | cons a t ih =>
      simp only [List.map_cons, List.find?]
      by_cases h : fullName a = m
      · rw [decide_eq_true (show fullName (eraseVH a) = m from h), decide_eq_true h]
        rfl
      · rw [decide_eq_false (show ¬fullName (eraseVH a) = m from h), decide_eq_false h]
        exact ih
  exact key env.ingressroutes

theorem prl_eraseVH (env : BuilderEnv)
    (rec1 rec2 : ObjWriter → IngressRoute → String → BuildState →
      Option (ObjWriter × BuildState))
    (hrec : ∀ sw dest m st, rec1 sw (eraseVH dest) m st = rec2 sw dest m st)
    (ns0 pfxMatch : String) (visited2 : List FullName) (host : String) (etls : Bool) :
    ∀ (routes : List RouteEntry) (sw : ObjWriter) (st : BuildState),
      processRouteList (envEraseVH env) rec1 ns0 pfxMatch visited2 host etls routes sw st =
      processRouteList env rec2 ns0 pfxMatch visited2 host etls routes sw st := by
  intro routes
  induction routes with
  | nil => intro sw st; rfl
  | cons route rest ih =>
    intro sw st
    simp only [processRouteList]
    by_cases h1 : route.services ≠ [] ∧ route.delegate ≠ none
    · rw [if_pos h1, if_pos h1]
    · rw [if_neg h1, if_neg h1]
      by_cases h2 : route.services ≠ []
      · rw [if_pos h2, if_pos h2, buildRouteForEntry_eraseVH]
        cases buildRouteForEntry env ns0 pfxMatch etls route with
        | error e => rfl
        | ok r => exact ih _ _
      · rw [if_neg h2, if_neg h2]
        rcases hd : route.delegate with _ | d
        · exact ih _ _
        · dsimp only
          rw [irLookup_eraseVH]
          rcases hir : irLookup env ⟨if d.ns = "" then ns0 else d.ns, d.name⟩ with _ | dest
          · exact ih _ _
          · dsimp only [Option.map]
            rw [show fullName (eraseVH dest) = fullName dest from rfl]
            by_cases hin : fullName dest ∈ visited2
            · rw [if_pos hin, if_pos hin]
            · rw [if_neg hin, if_neg hin, hrec]
              cases rec2 (newWriter (fullName dest)) dest route.matchPath
                  (eraseOrphaned (fullName dest) st) with
              | none => rfl
              | some p => exact ih _ _

theorem pir_eraseVH (env : BuilderEnv) :
    ∀ (fuel : Nat) (sw : ObjWriter) (ir : IngressRoute) (pfx : String)
      (vis : List FullName) (host : String) (etls : Bool) (st : BuildState),
      processIngressRoutes (envEraseVH env) fuel sw (eraseVH ir) pfx vis host etls st =
      processIngressRoutes env fuel sw ir pfx vis host etls st := by
  intro fuel
  induction fuel with
  | zero => intro sw ir pfx vis host etls st; rfl
  | succ fuel ih =>
    intro sw ir pfx vis host etls st
    simp only [processIngressRoutes]
    rw [show fullName (eraseVH ir) = fullName ir from rfl,
      show (eraseVH ir).ns = ir.ns from rfl,
      show (eraseVH ir).routes = ir.routes from rfl]
    rw [prl_eraseVH env
      (fun sw2 dest m st2 => processIngressRoutes (envEraseVH env) fuel sw2 dest m
        (vis ++ [fullName ir]) host etls st2)
      (fun sw2 dest m st2 => processIngressRoutes env fuel sw2 dest m
        (vis ++ [fullName ir]) host etls st2)
      (fun sw2 dest m st2 => ih sw2 dest m (vis ++ [fullName ir]) host etls st2)
      ir.ns pfx (vis ++ [fullName ir]) host etls ir.routes sw st]

/-- **C9**: a delegation target that itself declares a virtual host is treated
exactly as a delegate-only target.  (1) The whole route walk is insensitive to
the targets' virtual-host declarations (erasing them changes nothing), because
no root-to-root rejection exists; (2) a found, non-cycle target is removed
from the orphaned set and recursed into, with no condition on its virtual
host; (3) concretely, in `envC9` root `a` delegates to root `b`: both hosts
are built with one route each, both resources end Valid, and `b` is not
orphaned. -/
theorem c9_root_to_root_delegation :
    (∀ (env : BuilderEnv) (fuel : Nat) (sw : ObjWriter) (ir : IngressRoute)
        (pfx : String) (vis : List FullName) (host : String) (etls : Bool)
        (st : BuildState),
      processIngressRoutes (envEraseVH env) fuel sw (eraseVH ir) pfx vis host etls st =
        processIngressRoutes env fuel sw ir pfx vis host etls st) ∧
    (∀ (env : BuilderEnv)
        (rec : ObjWriter → IngressRoute → String → BuildState →
          Option (ObjWriter × BuildState))
        (ns0 pfxMatch : String) (visited2 : List FullName) (host : String) (etls : Bool)
        (route : RouteEntry) (rest : List RouteEntry) (sw : ObjWriter) (st : BuildState)
        (d : DelegateRef) (dest : IngressRoute),
      route.services = [] → route.delegate = some d →
      irLookup env ⟨if d.ns = "" then ns0 else d.ns, d.name⟩ = some dest →
      fullName dest ∉ visited2 →
      processRouteList env rec ns0 pfxMatch visited2 host etls (route :: rest) sw st =
        match rec (newWriter (fullName dest)) dest route.matchPath
            (eraseOrphaned (fullName dest) st) with
        | none => none
        | some (swd, std) =>
          processRouteList env rec ns0 pfxMatch visited2 host etls rest sw
            (commitW swd std)) ∧
    ((alistGet "a.com" (computeIngressRoutes envC9).virtualhosts).map List.length =
        some 1 ∧
      (alistGet "b.com" (computeIngressRoutes envC9).virtualhosts).map List.length =
        some 1 ∧
      statusOf (computeIngressRoutes envC9) ⟨"default", "a"⟩ =
        some ⟨true, "valid IngressRoute"⟩ ∧
      statusOf (computeIngressRoutes envC9) ⟨"default", "b"⟩ =
        some ⟨true, "valid IngressRoute"⟩ ∧
      (⟨"default", "b"⟩ : FullName) ∉ (computeIngressRoutes envC9).orphaned) := by
  refine ⟨pir_eraseVH, ?_, by decide⟩
  intro env rec ns0 pfxMatch visited2 host etls route rest sw st d dest
    hsvc hdel hlook hnin
  simp only [processRouteList]
  rw [if_neg (show ¬(route.services ≠ [] ∧ route.delegate ≠ none) by simp [hsvc]),
    if_neg (show ¬(route.services ≠ []) by simp [hsvc])]
  simp only [hdel]
  rw [hlook]
  dsimp only
  rw [if_neg hnin]

/-- Witness for C9: the congruence and delegation-step equations of
`c9_root_to_root_delegation` instantiated on `envC9`, whose target `b` is a
root. -/
theorem c9_root_to_root_delegation_witness :
    (processIngressRoutes (envEraseVH envC9) 3 (newWriter ⟨"default", "a"⟩)
        (eraseVH ⟨"a", "default", some ⟨"a.com", none⟩, [entryDelegate "/" "b"], none⟩)
        "" [] "a.com" false initialBuildState =
      processIngressRoutes envC9 3 (newWriter ⟨"default", "a"⟩)
        ⟨"a", "default", some ⟨"a.com", none⟩, [entryDelegate "/" "b"], none⟩
        "" [] "a.com" false initialBuildState) ∧
    (processRouteList envC9 (fun sw2 _ _ st2 => some (sw2, st2))
        "default" "" [⟨"default", "a"⟩] "a.com" false
        [entryDelegate "/" "b"] (newWriter ⟨"default", "a"⟩) initialBuildState =
      match (fun (sw2 : ObjWriter) (_ : IngressRoute) (_ : String) (st2 : BuildState) =>
          some (sw2, st2)) (newWriter ⟨"default", "b"⟩)
          (⟨"b", "default", some ⟨"b.com", none⟩, [entryTerminal "/"], none⟩ : IngressRoute)
          "/" (eraseOrphaned ⟨"default", "b"⟩ initialBuildState) with
      | none => none
      | some (swd, std) =>
        processRouteList envC9 (fun sw2 _ _ st2 => some (sw2, st2))
          "default" "" [⟨"default", "a"⟩] "a.com" false
          [] (newWriter ⟨"default", "a"⟩) (commitW swd std)) :=
  ⟨c9_root_to_root_delegation.1 envC9 3 (newWriter ⟨"default", "a"⟩)
      ⟨"a", "default", some ⟨"a.com", none⟩, [entryDelegate "/" "b"], none⟩
      "" [] "a.com" false initialBuildState,
   c9_root_to_root_delegation.2.1 envC9 (fun sw2 _ _ st2 => some (sw2, st2))
      "default" "" [⟨"default", "a"⟩] "a.com" false
      (entryDelegate "/" "b") [] (newWriter ⟨"default", "a"⟩) initialBuildState
      ⟨"b", ""⟩ ⟨"b", "default", some ⟨"b.com", none⟩, [entryTerminal "/"], none⟩
      (by decide) (by decide) (by decide) (by decide)⟩

/-- **C10**: a non-blank FQDN containing the wildcard character is never a
reason for Invalid: with the root-namespace and blank-FQDN checks passed and
no TLS block, `computeIngressRoute` proceeds straight into route processing
for a wildcard FQDN, and the concrete wildcard root of `envC10` builds a
virtual host for `*.example.com` with its route, ending Valid. -/
theorem c10_wildcard_fqdn_processed :
    (∀ (env : BuilderEnv) (fuel : Nat) (st : BuildState) (ir : IngressRoute)
        (f : String),
      ir.virtualHost = some ⟨f, none⟩ →
      rootAllowed env ir.ns = true →
      isBlank f = false →
      f.data.contains '*' = true →
      computeIngressRoute env fuel st ir =
        computeIngressRouteTail env fuel (newWriter (fullName ir)) ir f false false st) ∧
    ((computeIngressRoutes envC10).statuses =
        [(⟨"default", "w"⟩, ⟨true, "valid IngressRoute"⟩)] ∧
      ((computeIngressRoutes envC10).virtualhosts.map fun p => (p.1, p.2.length)) =
        [("*.example.com", 1)]) := by
  refine ⟨?_, by decide⟩
  intro env fuel st ir f hvh hroot hblank hwild
  simp only [computeIngressRoute, hvh]
  rw [if_neg (show ¬¬(rootAllowed env ir.ns = true) by simp [hroot]),
    if_neg (show ¬(isBlank f = true) by simp [hblank])]

/-- Witness for C10: the wildcard root of `envC10` passes the header checks
and proceeds into route processing. -/
theorem c10_wildcard_fqdn_processed_witness :
    computeIngressRoute envC10 2 initialBuildState
        ⟨"w", "default", some ⟨"*.example.com", none⟩, [entryTerminal "/"], none⟩ =
      computeIngressRouteTail envC10 2 (newWriter ⟨"default", "w"⟩)
        ⟨"w", "default", some ⟨"*.example.com", none⟩, [entryTerminal "/"], none⟩
        "*.example.com" false false initialBuildState :=
  c10_wildcard_fqdn_processed.1 envC10 2 initialBuildState
    ⟨"w", "default", some ⟨"*.example.com", none⟩, [entryTerminal "/"], none⟩
    "*.example.com" (by decide) (by decide) (by decide) (by decide)
